import Mathlib

/-!
# Iterator and container templates (`PatternTemplates.h`) and their use (`main.cpp`)

A shallow embedding of the fixed-capacity containers `StackClass<T>` and
`ArrayClass<T>`, of their iterators `StackIterator<T>` and `ArrayIterator<T>`,
of `IteratorDecorator<T>` and `ConstIteratorAdapter`, and of the keyboard
simulation of `main.cpp` that fills an `ArrayClass<Keyboard*>` and traverses it.

Conventions of the embedding.

* `size_t` is an unsigned integer of `w` bits: counters are natural numbers and
  every increment or decrement is reduced modulo `2 ^ w`.
* The array member `T Items[MaxSize]` is a function from indices to values of
  which only the indices below `MaxSize` are elements of the array.  An access
  at an index at or beyond `MaxSize` is outside the array object and is
  reported as `none`.
* An iterator stores a pointer to the first element of its container's array,
  not a copy of the elements.  What a pointer refers to is supplied by a
  `Memory`, the content of the pointed-to arrays at the time of the call.
* The abstract class `Iterator<T>` is the record of its four virtual methods.
-/

namespace PatternTemplates

/-! ## Machine arithmetic and memory -/

/-- The capacity constant, `const size_t MaxSize = 100;`. -/
def MaxSize : Nat := 100

/-- Post- or pre-increment of a `size_t` of `w` bits (`n++`). -/
def sizeInc (w n : Nat) : Nat := (n + 1) % 2 ^ w

/-- Pre-decrement of a `size_t` of `w` bits (`--n`): `0` wraps to `2 ^ w - 1`. -/
def sizeDec (w n : Nat) : Nat := (n + 2 ^ w - 1) % 2 ^ w

/-- The address held by a `T *`. -/
abbrev Ptr := Nat

/-- The content of memory as seen through `T *` pointers: `mem p i` is the
element `p[i]`, and `none` when index `i` is outside the array `p` points to. -/
abbrev Memory (T : Type) := Ptr → Nat → Option T

/-- Read of element `index` of a `T [MaxSize]` array with content `items`. -/
def arrayRead {T : Type} (items : Nat → T) (index : Nat) : Option T :=
  if index < MaxSize then some (items index) else none

/-- Content of a `T [MaxSize]` array after the assignment `items[index] = x`. -/
def arrayWrite {T : Type} (items : Nat → T) (index : Nat) (x : T) : Nat → T :=
  fun i => if i = index then x else items i

/-! ## The abstract class `Iterator<T>` -/

/-- The virtual methods of `Iterator<T>` for an implementation whose objects
have state `I`: `First`, `Next`, `IsDone` and `GetCurrent`. -/
structure Iterator (I T : Type) where
  First : I → I
  Next : I → I
  IsDone : I → Bool
  GetCurrent : Memory T → I → Option T

/-- A call of one of the two mutating methods of an iterator. -/
inductive IterCall where
  | first
  | next
deriving DecidableEq, Repr

/-- Effect of one call on the iterator state. -/
def Iterator.call {I T : Type} (ops : Iterator I T) (it : I) : IterCall → I
  | .first => ops.First it
  | .next => ops.Next it

/-- Effect of a sequence of `First()` / `Next()` calls, issued left to right. -/
def Iterator.calls {I T : Type} (ops : Iterator I T) (it : I) (cs : List IterCall) : I :=
  cs.foldl ops.call it

/-- The iterator state after `k` consecutive calls of `Next()`. -/
def Iterator.nextTimes {I T : Type} (ops : Iterator I T) : Nat → I → I
  | 0, it => it
  | k + 1, it => Iterator.nextTimes ops k (ops.Next it)

/-- A call sequence that issues `Next()` only while `IsDone()` is false, as the
traversal loop does. -/
def Iterator.disciplined {I T : Type} (ops : Iterator I T) : I → List IterCall → Bool
  | _, [] => true
  | it, .first :: cs => Iterator.disciplined ops (ops.First it) cs
  | it, .next :: cs => !ops.IsDone it && Iterator.disciplined ops (ops.Next it) cs

/-- The loop `while (!it->IsDone()) { record it->GetCurrent(); it->Next(); }`
run for at most `fuel` evaluations of the loop condition.  The result is the
list of recorded values; `none` when the fuel runs out before `IsDone()` holds
or when `GetCurrent()` reads outside its array. -/
def traverseFrom {I T : Type} (ops : Iterator I T) (mem : Memory T) : Nat → I → Option (List T)
  | 0, _ => none
  | fuel + 1, it =>
    if ops.IsDone it then some []
    else
      match ops.GetCurrent mem it with
      | none => none
      | some x => (traverseFrom ops mem fuel (ops.Next it)).map (fun rest => x :: rest)

/-- The full traversal `for (it->First(); !it->IsDone(); it->Next())` recording
`it->GetCurrent()` in the body (the loop of `UseAll`). -/
def traverse {I T : Type} (ops : Iterator I T) (mem : Memory T) (fuel : Nat) (it : I) :
    Option (List T) :=
  traverseFrom ops mem fuel (ops.First it)

/-- From `start`, `IsDone()` is false after fewer than `size` calls of `Next()`,
true after exactly `size` calls, and still true after one more call. -/
def Iterator.DoneAfterExactly {I T : Type} (ops : Iterator I T) (size : Nat) (start : I) : Prop :=
  (∀ k, k < size → ops.IsDone (ops.nextTimes k start) = false) ∧
  ops.IsDone (ops.nextTimes size start) = true ∧
  ops.IsDone (ops.nextTimes (size + 1) start) = true

/-- An iterator implementation that is a cursor over an array: `ptr`, `pos` and
`size` read its three data members, and the four methods act on them as those
of `StackIterator` and `ArrayIterator` do. -/
structure CursorLaws {I T : Type} (w : Nat) (ops : Iterator I T)
    (ptr : I → Ptr) (pos size : I → Nat) : Prop where
  first_pos : ∀ it, pos (ops.First it) = 0
  first_size : ∀ it, size (ops.First it) = size it
  first_ptr : ∀ it, ptr (ops.First it) = ptr it
  next_pos : ∀ it, pos (ops.Next it) = sizeInc w (pos it)
  next_size : ∀ it, size (ops.Next it) = size it
  next_ptr : ∀ it, ptr (ops.Next it) = ptr it
  isDone : ∀ it, ops.IsDone it = decide (pos it ≥ size it)
  getCurrent : ∀ mem it, ops.GetCurrent mem it = mem (ptr it) (pos it)

/-! ## `StackIterator<T>` -/

/-- The data members of `StackIterator<T>`: `T *StackContainer; size_t Pos; size_t Size;`. -/
structure StackIterator where
  StackContainer : Ptr
  Pos : Nat
  Size : Nat
deriving DecidableEq, Repr

/-- The constructor `StackIterator(T *container, size_t size)
: StackContainer(container), Pos(0), Size(size) {}`. -/
def StackIterator.ctor (container : Ptr) (size : Nat) : StackIterator :=
  { StackContainer := container, Pos := 0, Size := size }

/-- The method `void First() override { Pos = 0; }`. -/
def StackIterator.First (it : StackIterator) : StackIterator :=
  { it with Pos := 0 }

/-- The method `void Next() override { Pos++; }`. -/
def StackIterator.Next (w : Nat) (it : StackIterator) : StackIterator :=
  { it with Pos := sizeInc w it.Pos }

/-- The method `bool IsDone() const override { return (Pos >= Size); }`. -/
def StackIterator.IsDone (it : StackIterator) : Bool :=
  decide (it.Pos ≥ it.Size)

/-- The method `T GetCurrent() const override { return StackContainer[Pos]; }`. -/
def StackIterator.GetCurrent {T : Type} (mem : Memory T) (it : StackIterator) : Option T :=
  mem it.StackContainer it.Pos

/-- The virtual table of `StackIterator<T>`. -/
def StackIterator.iterator (w : Nat) (T : Type) : Iterator StackIterator T :=
  { First := StackIterator.First
    Next := StackIterator.Next w
    IsDone := StackIterator.IsDone
    GetCurrent := StackIterator.GetCurrent }

/-! ## `StackClass<T>` -/

/-- The data members of `StackClass<T>`: `T Items[MaxSize]; size_t Top;`. -/
structure StackClass (T : Type) where
  Items : Nat → T
  Top : Nat

/-- The constructor `StackClass() : Top(0) {}`; `init` is the indeterminate
initial content of `Items`. -/
def StackClass.ctor {T : Type} (init : Nat → T) : StackClass T :=
  { Items := init, Top := 0 }

/-- The method `bool IsEmpty() const { return (Top == 0); }`. -/
def StackClass.IsEmpty {T : Type} (s : StackClass T) : Bool :=
  decide (s.Top = 0)

/-- The method `size_t Size() const { return Top; }`. -/
def StackClass.Size {T : Type} (s : StackClass T) : Nat :=
  s.Top

/-- The index of `Items` that `Push` writes: the value of `Top` before `Top++`. -/
def StackClass.pushIndex {T : Type} (s : StackClass T) : Nat :=
  s.Top

/-- The index of `Items` that `Pop` reads: the value of `Top` after `--Top`. -/
def StackClass.popIndex {T : Type} (w : Nat) (s : StackClass T) : Nat :=
  sizeDec w s.Top

/-- The method `void Push(T newObject) { Items[Top++] = newObject; }`.
The result is `none` when the write is outside `Items`. -/
def StackClass.Push {T : Type} (w : Nat) (s : StackClass T) (newObject : T) :
    Option (StackClass T) :=
  if s.pushIndex < MaxSize then
    some { Items := arrayWrite s.Items s.pushIndex newObject, Top := sizeInc w s.Top }
  else none

/-- The method `T Pop() { return Items[--Top]; }`.  The first component is the
returned value, `none` when the read is outside `Items`; the second is the
stack with the decremented counter. -/
def StackClass.Pop {T : Type} (w : Nat) (s : StackClass T) : Option T × StackClass T :=
  (arrayRead s.Items (s.popIndex w), { s with Top := sizeDec w s.Top })

/-- The method `T GetElementByIndex(size_t index) const { return Items[index]; }`. -/
def StackClass.GetElementByIndex {T : Type} (s : StackClass T) (index : Nat) : Option T :=
  arrayRead s.Items index

/-- The method `GetIterator() { return new StackIterator<T>(Items, Top); }`;
`items` is the address the array member `Items` of this object decays to. -/
def StackClass.GetIterator {T : Type} (items : Ptr) (s : StackClass T) : StackIterator :=
  StackIterator.ctor items s.Top

/-- What a pointer to `Items` of the stack `s` currently refers to. -/
def StackClass.view {T : Type} (s : StackClass T) : Nat → Option T :=
  arrayRead s.Items

/-- The elements held by the stack, `Items[0 .. Top-1]`, bottom first. -/
def StackClass.contents {T : Type} (s : StackClass T) : List T :=
  (List.range s.Top).map s.Items

/-- A call of `Push(x)` or of `Pop()`. -/
inductive StackOp (T : Type) where
  | push (x : T)
  | pop

/-- Execution of a sequence of `Push` / `Pop` calls.  The result is the final
stack and the values returned by the `Pop` calls, in call order; `none` when a
call accesses `Items` out of bounds. -/
def StackClass.run {T : Type} (w : Nat) : StackClass T → List (StackOp T) →
    Option (StackClass T × List T)
  | s, [] => some (s, [])
  | s, .push x :: ops =>
    match s.Push w x with
    | none => none
    | some s' => StackClass.run w s' ops
  | s, .pop :: ops =>
    match s.Pop w with
    | (none, _) => none
    | (some v, s') => (StackClass.run w s' ops).map (fun r => (r.1, v :: r.2))

/-- The caller's discipline on a call sequence issued with `n` stored elements:
`Push` only with fewer than `MaxSize` elements, `Pop` only with more than `lo`
elements (`lo = 0`: never on an empty stack). -/
def StackOp.withinCapacity {T : Type} (lo : Nat) : Nat → List (StackOp T) → Bool
  | _, [] => true
  | n, .push _ :: ops => decide (n < MaxSize) && StackOp.withinCapacity lo (n + 1) ops
  | n, .pop :: ops => decide (lo < n) && StackOp.withinCapacity lo (n - 1) ops

/-- The documented preconditions as the caller checks them with `Size()` before
each call: `Push` only when `Size() < MaxSize`, `Pop` only when `Size() > 0`.
Nothing is required of the calls that follow an out-of-bounds access. -/
def StackClass.respects {T : Type} (w : Nat) : StackClass T → List (StackOp T) → Bool
  | _, [] => true
  | s, .push x :: ops =>
    decide (s.Size < MaxSize) &&
      (match s.Push w x with
       | none => true
       | some s' => StackClass.respects w s' ops)
  | s, .pop :: ops =>
    decide (0 < s.Size) &&
      (match s.Pop w with
       | (none, _) => true
       | (some _, s') => StackClass.respects w s' ops)

/-- Number of `Push` calls of a call sequence. -/
def StackOp.pushes {T : Type} : List (StackOp T) → Nat
  | [] => 0
  | .push _ :: ops => StackOp.pushes ops + 1
  | .pop :: ops => StackOp.pushes ops

/-- Number of `Pop` calls of a call sequence. -/
def StackOp.pops {T : Type} : List (StackOp T) → Nat
  | [] => 0
  | .push _ :: ops => StackOp.pops ops
  | .pop :: ops => StackOp.pops ops + 1

/-- Reference stack, following the specification's words: a list whose head is
the most recently pushed element not yet popped.  The result is the final list
and the popped values in call order; `none` when `Pop` meets the empty list. -/
def refStackRun {T : Type} : List T → List (StackOp T) → Option (List T × List T)
  | st, [] => some (st, [])
  | st, .push x :: ops => refStackRun (x :: st) ops
  | [], .pop :: _ => none
  | v :: st, .pop :: ops => (refStackRun st ops).map (fun r => (r.1, v :: r.2))

/-! ## `ArrayIterator<T>` -/

/-- The data members of `ArrayIterator<T>`:
`const T *ArrayContainer; size_t Pos; size_t Size;`. -/
structure ArrayIterator where
  ArrayContainer : Ptr
  Pos : Nat
  Size : Nat
deriving DecidableEq, Repr

/-- The constructor `ArrayIterator(T *container, size_t size)
: ArrayContainer(container), Pos(0), Size(size) {}`. -/
def ArrayIterator.ctor (container : Ptr) (size : Nat) : ArrayIterator :=
  { ArrayContainer := container, Pos := 0, Size := size }

/-- The method `void First() override { Pos = 0; }`. -/
def ArrayIterator.First (it : ArrayIterator) : ArrayIterator :=
  { it with Pos := 0 }

/-- The method `void Next() override { Pos++; }`. -/
def ArrayIterator.Next (w : Nat) (it : ArrayIterator) : ArrayIterator :=
  { it with Pos := sizeInc w it.Pos }

/-- The method `bool IsDone() const override { return (Pos >= Size); }`. -/
def ArrayIterator.IsDone (it : ArrayIterator) : Bool :=
  decide (it.Pos ≥ it.Size)

/-- The method `T GetCurrent() const override { return ArrayContainer[Pos]; }`. -/
def ArrayIterator.GetCurrent {T : Type} (mem : Memory T) (it : ArrayIterator) : Option T :=
  mem it.ArrayContainer it.Pos

/-- The virtual table of `ArrayIterator<T>`. -/
def ArrayIterator.iterator (w : Nat) (T : Type) : Iterator ArrayIterator T :=
  { First := ArrayIterator.First
    Next := ArrayIterator.Next w
    IsDone := ArrayIterator.IsDone
    GetCurrent := ArrayIterator.GetCurrent }

/-! ## `ArrayClass<T>` -/

/-- The data members of `ArrayClass<T>`: `T Items[MaxSize]; size_t ArraySize;`. -/
structure ArrayClass (T : Type) where
  Items : Nat → T
  ArraySize : Nat

/-- The constructor `ArrayClass() : ArraySize(0) {}`; `init` is the
indeterminate initial content of `Items`. -/
def ArrayClass.ctor {T : Type} (init : Nat → T) : ArrayClass T :=
  { Items := init, ArraySize := 0 }

/-- The index of `Items` that `Add` writes: `ArraySize` before `ArraySize++`. -/
def ArrayClass.addIndex {T : Type} (a : ArrayClass T) : Nat :=
  a.ArraySize

/-- The method `void Add(T newObject) { Items[ArraySize++] = newObject; }`.
The result is `none` when the write is outside `Items`. -/
def ArrayClass.Add {T : Type} (w : Nat) (a : ArrayClass T) (newObject : T) :
    Option (ArrayClass T) :=
  if a.addIndex < MaxSize then
    some { Items := arrayWrite a.Items a.addIndex newObject, ArraySize := sizeInc w a.ArraySize }
  else none

/-- The method `size_t Size() const { return ArraySize; }`. -/
def ArrayClass.Size {T : Type} (a : ArrayClass T) : Nat :=
  a.ArraySize

/-- The method `T operator[](size_t index) const { return Items[index]; }`. -/
def ArrayClass.subscript {T : Type} (a : ArrayClass T) (index : Nat) : Option T :=
  arrayRead a.Items index

/-- The method `T GetElement(size_t index) const { return Items[index]; }`. -/
def ArrayClass.GetElement {T : Type} (a : ArrayClass T) (index : Nat) : Option T :=
  arrayRead a.Items index

/-- The method `GetIterator() { return new ArrayIterator<T>(Items, ArraySize); }`;
`items` is the address the array member `Items` of this object decays to. -/
def ArrayClass.GetIterator {T : Type} (items : Ptr) (a : ArrayClass T) : ArrayIterator :=
  ArrayIterator.ctor items a.ArraySize

/-- What a pointer to `Items` of the array `a` currently refers to. -/
def ArrayClass.view {T : Type} (a : ArrayClass T) : Nat → Option T :=
  arrayRead a.Items

/-- The elements held by the array, `Items[0 .. ArraySize-1]`. -/
def ArrayClass.contents {T : Type} (a : ArrayClass T) : List T :=
  (List.range a.ArraySize).map a.Items

/-- The calls `Add(x_1); ...; Add(x_n)` for the list `[x_1, ..., x_n]`; `none`
when an `Add` writes outside `Items`. -/
def ArrayClass.addAll {T : Type} (w : Nat) : ArrayClass T → List T → Option (ArrayClass T)
  | a, [] => some a
  | a, x :: xs =>
    match a.Add w x with
    | none => none
    | some a' => ArrayClass.addAll w a' xs

/-- The documented precondition as the caller checks it with `Size()` before
each call: `Add` only when `Size() < MaxSize`.  Nothing is required of the calls
that follow an out-of-bounds access. -/
def ArrayClass.respects {T : Type} (w : Nat) : ArrayClass T → List T → Bool
  | _, [] => true
  | a, x :: xs =>
    decide (a.Size < MaxSize) &&
      (match a.Add w x with
       | none => true
       | some a' => ArrayClass.respects w a' xs)

/-! ## `IteratorDecorator<T>` -/

/-- The data member of `IteratorDecorator<T>`, `Iterator<T> *It`: the wrapped
iterator object, which the decorator owns. -/
structure IteratorDecorator (I : Type) where
  It : I

/-- The constructor `IteratorDecorator(Iterator<T> *it) : It(it) {}`. -/
def IteratorDecorator.ctor {I : Type} (it : I) : IteratorDecorator I :=
  { It := it }

/-- The method `virtual void First() { It->First(); }`. -/
def IteratorDecorator.First {I T : Type} (ops : Iterator I T) (d : IteratorDecorator I) :
    IteratorDecorator I :=
  { It := ops.First d.It }

/-- The method `virtual void Next() { It->Next(); }`. -/
def IteratorDecorator.Next {I T : Type} (ops : Iterator I T) (d : IteratorDecorator I) :
    IteratorDecorator I :=
  { It := ops.Next d.It }

/-- The method `virtual bool IsDone() const { return It->IsDone(); }`. -/
def IteratorDecorator.IsDone {I T : Type} (ops : Iterator I T) (d : IteratorDecorator I) : Bool :=
  ops.IsDone d.It

/-- The method `virtual T GetCurrent() const { return It->GetCurrent(); }`. -/
def IteratorDecorator.GetCurrent {I T : Type} (ops : Iterator I T) (mem : Memory T)
    (d : IteratorDecorator I) : Option T :=
  ops.GetCurrent mem d.It

/-- The virtual table of an `IteratorDecorator<T>` whose wrapped iterator
dispatches through `ops`. -/
def IteratorDecorator.iterator {I T : Type} (ops : Iterator I T) :
    Iterator (IteratorDecorator I) T :=
  { First := IteratorDecorator.First ops
    Next := IteratorDecorator.Next ops
    IsDone := IteratorDecorator.IsDone ops
    GetCurrent := IteratorDecorator.GetCurrent ops }

/-! ## `ConstIteratorAdapter<ContainerType, ItemType>` -/

/-- The native `begin()` of an external sequence container, modelled as a finite
list whose positions are `0, ..., length`: the position of the first element. -/
def containerBegin {T : Type} (_container : List T) : Nat := 0

/-- The native `end()` of an external sequence container: the position after the
last element. -/
def containerEnd {T : Type} (container : List T) : Nat := container.length

/-- The data members of `ConstIteratorAdapter`, `ContainerType *Container;` and
`typename ContainerType::const_iterator It;`.  The field `Container` is the
external container the pointer refers to, so that the state a method can reach
through the pointer is part of what the method is given and returns; `It` is a
position of that container. -/
structure ConstIteratorAdapter (T : Type) where
  Container : List T
  It : Nat

/-- The constructor `ConstIteratorAdapter(ContainerType *container)
: Container(container) { It = Container->begin(); }`. -/
def ConstIteratorAdapter.ctor {T : Type} (container : List T) : ConstIteratorAdapter T :=
  { Container := container, It := containerBegin container }

/-- The method `virtual void First() { It = Container->begin(); }`. -/
def ConstIteratorAdapter.First {T : Type} (a : ConstIteratorAdapter T) :
    ConstIteratorAdapter T :=
  { a with It := containerBegin a.Container }

/-- The method `virtual void Next() { It++; }`. -/
def ConstIteratorAdapter.Next {T : Type} (a : ConstIteratorAdapter T) :
    ConstIteratorAdapter T :=
  { a with It := a.It + 1 }

/-- The method `virtual bool IsDone() const { return (It == Container->end()); }`. -/
def ConstIteratorAdapter.IsDone {T : Type} (a : ConstIteratorAdapter T) : Bool :=
  decide (a.It = containerEnd a.Container)

/-- The method `virtual ItemType GetCurrent() const { return *It; }`; `none` when
`It` is not the position of an element. -/
def ConstIteratorAdapter.GetCurrent {T : Type} (a : ConstIteratorAdapter T) : Option T :=
  a.Container[a.It]?

/-- The virtual table of `ConstIteratorAdapter`; its `GetCurrent` reads the
external container and no `Items` array. -/
def ConstIteratorAdapter.iterator (T : Type) : Iterator (ConstIteratorAdapter T) T :=
  { First := ConstIteratorAdapter.First
    Next := ConstIteratorAdapter.Next
    IsDone := ConstIteratorAdapter.IsDone
    GetCurrent := fun _ a => a.GetCurrent }

/-! ## `main.cpp`: input strategies -/

/-- The scoped enumeration `enum class InputStrategyEnum { Click, Touch, Silent, None }`.
Its underlying type is `int`, and a value of the enumeration is any integer. -/
abbrev InputStrategyEnum := Int

/-- The enumerator `InputStrategyEnum::Click`. -/
def InputStrategyEnum.Click : InputStrategyEnum := 0

/-- The enumerator `InputStrategyEnum::Touch`. -/
def InputStrategyEnum.Touch : InputStrategyEnum := 1

/-- The enumerator `InputStrategyEnum::Silent`. -/
def InputStrategyEnum.Silent : InputStrategyEnum := 2

/-- The enumerator `InputStrategyEnum::None`. -/
def InputStrategyEnum.None : InputStrategyEnum := 3

/-- An object of a class derived from `InputStrategy`.  These classes have no
data members, so an object is its dynamic type. -/
inductive InputStrategy where
  | ClickInputStrategy
  | TouchInputStrategy
  | SilentInputStrategy
deriving DecidableEq, Repr

/-- The virtual method `Input()`: the text it writes to `cout`. -/
def InputStrategy.Input : InputStrategy → String
  | .ClickInputStrategy => "Clicking keys..."
  | .TouchInputStrategy => "Touching keys..."
  | .SilentInputStrategy => "Typing silently..."

/-- The factory `InputStrategy* CreateInputStrategy(InputStrategyEnum type)`;
`none` is `nullptr`, returned by the `default:` label of the `switch`. -/
def CreateInputStrategy (type : InputStrategyEnum) : Option InputStrategy :=
  if type = InputStrategyEnum.Click then some InputStrategy.ClickInputStrategy
  else if type = InputStrategyEnum.Touch then some InputStrategy.TouchInputStrategy
  else if type = InputStrategyEnum.Silent then some InputStrategy.SilentInputStrategy
  else none

/-! ## `main.cpp`: keyboards -/

/-- The C library generator behind `rand()`: `results i` is the value returned
by call number `i`, a number from `0` to `RAND_MAX`, and `calls` counts the
calls made so far. -/
structure RandState where
  results : Nat → Nat
  calls : Nat

/-- One call of `rand()`: the returned value and the generator afterwards. -/
def rand (r : RandState) : Nat × RandState :=
  (r.results r.calls, { r with calls := r.calls + 1 })

/-- The scoped enumeration
`enum class KeyboardType { Mechanical, Membrane, Optical, Unknown }`.
Its underlying type is `int`, and a value of the enumeration is any integer. -/
abbrev KeyboardType := Int

/-- The enumerator `KeyboardType::Mechanical`. -/
def KeyboardType.Mechanical : KeyboardType := 0

/-- The enumerator `KeyboardType::Membrane`. -/
def KeyboardType.Membrane : KeyboardType := 1

/-- The enumerator `KeyboardType::Optical`. -/
def KeyboardType.Optical : KeyboardType := 2

/-- The enumerator `KeyboardType::Unknown`. -/
def KeyboardType.Unknown : KeyboardType := 3

/-- The concrete classes derived from `Keyboard`. -/
inductive KeyboardClass where
  | MechanicalKeyboard
  | MembraneKeyboard
  | OpticalKeyboard
deriving DecidableEq, Repr

/-- An object of a class derived from `Keyboard`: its dynamic type and the data
members `InputStrategy* Strategy; bool IsFunctional;` (`none` is `nullptr`). -/
structure Keyboard where
  dynamicType : KeyboardClass
  Strategy : Option InputStrategy
  IsFunctional : Bool
deriving DecidableEq, Repr

/-- The base constructor `Keyboard() : Strategy(nullptr)
{ IsFunctional = static_cast<bool>(rand() % 2); }`, run for an object of the
derived class `cls`. -/
def Keyboard.ctor (cls : KeyboardClass) (r : RandState) : Keyboard × RandState :=
  ({ dynamicType := cls, Strategy := none, IsFunctional := decide ((rand r).1 % 2 ≠ 0) },
    (rand r).2)

/-- The method `void SetInputStrategy(InputStrategy* newStrategy)
{ Strategy = newStrategy; }`. -/
def Keyboard.SetInputStrategy (k : Keyboard) (newStrategy : Option InputStrategy) : Keyboard :=
  { k with Strategy := newStrategy }

/-- The constructor `MechanicalKeyboard()
{ SetInputStrategy(CreateInputStrategy(InputStrategyEnum::Click)); }`, run after
the base constructor. -/
def MechanicalKeyboard.ctor (r : RandState) : Keyboard × RandState :=
  ((Keyboard.ctor KeyboardClass.MechanicalKeyboard r).1.SetInputStrategy
      (CreateInputStrategy InputStrategyEnum.Click),
    (Keyboard.ctor KeyboardClass.MechanicalKeyboard r).2)

/-- The constructor `MembraneKeyboard()
{ SetInputStrategy(CreateInputStrategy(InputStrategyEnum::Silent)); }`, run after
the base constructor. -/
def MembraneKeyboard.ctor (r : RandState) : Keyboard × RandState :=
  ((Keyboard.ctor KeyboardClass.MembraneKeyboard r).1.SetInputStrategy
      (CreateInputStrategy InputStrategyEnum.Silent),
    (Keyboard.ctor KeyboardClass.MembraneKeyboard r).2)

/-- The constructor `OpticalKeyboard()
{ SetInputStrategy(CreateInputStrategy(InputStrategyEnum::Touch)); }`, run after
the base constructor. -/
def OpticalKeyboard.ctor (r : RandState) : Keyboard × RandState :=
  ((Keyboard.ctor KeyboardClass.OpticalKeyboard r).1.SetInputStrategy
      (CreateInputStrategy InputStrategyEnum.Touch),
    (Keyboard.ctor KeyboardClass.OpticalKeyboard r).2)

/-- The text of the `else` branch of `UseWithStrategy`. -/
def noInputMethod : String := "No input method defined!"

/-- The method `UseWithStrategy()`:
`if (Strategy) Strategy->Input(); else cout << "No input method defined!";`. -/
def Keyboard.UseWithStrategy (k : Keyboard) : String :=
  match k.Strategy with
  | some strategy => strategy.Input
  | none => noInputMethod

/-- The method `Diagnose()`:
`if (IsFunctional) cout << "Working"; else cout << "Broken";`. -/
def Keyboard.Diagnose (k : Keyboard) : String :=
  if k.IsFunctional then "Working" else "Broken"

/-- The virtual method `PrintType()` of the three derived classes. -/
def Keyboard.PrintType (k : Keyboard) : String :=
  match k.dynamicType with
  | .MechanicalKeyboard => "Mechanical Keyboard"
  | .MembraneKeyboard => "Membrane Keyboard"
  | .OpticalKeyboard => "Optical Keyboard"

/-- The virtual method `Prepare()` of the three derived classes. -/
def Keyboard.Prepare (k : Keyboard) : String :=
  match k.dynamicType with
  | .MechanicalKeyboard => "Lubricate switches"
  | .MembraneKeyboard => "Check rubber domes"
  | .OpticalKeyboard => "Test infrared sensors"

/-- The method `Use()`: the pieces of the line it writes to `cout`, in order,
without the final `endl`. -/
def Keyboard.Use (k : Keyboard) : List String :=
  [k.PrintType, " : ", k.Diagnose, " : ", k.Prepare, " : ", k.UseWithStrategy]

/-- The factory `Keyboard* CreateKeyboard(KeyboardType type)`; `none` is
`nullptr`, returned by the `default:` label of the `switch` without a call of
`rand()`. -/
def CreateKeyboard (type : KeyboardType) (r : RandState) : Option Keyboard × RandState :=
  if type = KeyboardType.Mechanical then
    (some (MechanicalKeyboard.ctor r).1, (MechanicalKeyboard.ctor r).2)
  else if type = KeyboardType.Membrane then
    (some (MembraneKeyboard.ctor r).1, (MembraneKeyboard.ctor r).2)
  else if type = KeyboardType.Optical then
    (some (OpticalKeyboard.ctor r).1, (OpticalKeyboard.ctor r).2)
  else (none, r)

/-! ## `main.cpp`: `UseAll` and `main` -/

/-- The loop of `UseAll` from the current iterator state,
`for (; !it->IsDone(); it->Next()) { it->GetCurrent()->Use(); }`, run for at most
`fuel` evaluations of the loop condition.  The result lists, in order, every
call of `GetCurrent()` with the iterator state it was made in and the keyboard
whose `Use()` was then called; `none` when the fuel runs out, when
`GetCurrent()` reads outside its array, or when the pointer it returns is
`nullptr`. -/
def UseAllFrom {I : Type} (ops : Iterator I (Option Keyboard)) (mem : Memory (Option Keyboard)) :
    Nat → I → Option (List (I × Keyboard))
  | 0, _ => none
  | fuel + 1, it =>
    if ops.IsDone it then some []
    else
      match ops.GetCurrent mem it with
      | none => none
      | some none => none
      | some (some keyboard) =>
        (UseAllFrom ops mem fuel (ops.Next it)).map (fun rest => (it, keyboard) :: rest)

/-- The function `void UseAll(Iterator<Keyboard*>* it)`. -/
def UseAll {I : Type} (ops : Iterator I (Option Keyboard)) (mem : Memory (Option Keyboard))
    (fuel : Nat) (it : I) : Option (List (I × Keyboard)) :=
  UseAllFrom ops mem fuel (ops.First it)

/-- The loop of `main` from the value `i` of its counter,
`for (; i < 10; ++i) { int k = rand() % 3;
keyboardArray.Add(CreateKeyboard(static_cast<KeyboardType>(k))); }`, run for at
most `fuel` evaluations of the loop condition; `none` when the fuel runs out or
when an `Add` writes outside `Items`. -/
def mainFill (w : Nat) : Nat → Nat → RandState → ArrayClass (Option Keyboard) →
    Option (RandState × ArrayClass (Option Keyboard))
  | 0, _, _, _ => none
  | fuel + 1, i, r, keyboardArray =>
    if i < 10 then
      match keyboardArray.Add w (CreateKeyboard (Int.ofNat ((rand r).1 % 3)) (rand r).2).1 with
      | none => none
      | some keyboardArray' =>
        mainFill w fuel (sizeInc w i) (CreateKeyboard (Int.ofNat ((rand r).1 % 3)) (rand r).2).2
          keyboardArray'
    else some (r, keyboardArray)

/-- The pointer `CreateKeyboard(static_cast<KeyboardType>(rand() % 3))` yields
when `calls` calls of `rand()` were made before. -/
def keyboardAt (results : Nat → Nat) (calls : Nat) : Option Keyboard :=
  (CreateKeyboard (Int.ofNat ((rand { results := results, calls := calls }).1 % 3))
    (rand { results := results, calls := calls }).2).1

/-- The function `main`, for the sequence `results` of values that `rand()`
returns after `srand(time(0))` and the indeterminate initial content `init` of
`keyboardArray.Items`: the loop filling `keyboardArray`, then
`UseAll(keyboardArray.GetIterator())`, whose result is returned.  Each of the
two loops is given `fuel` evaluations of its condition. -/
def main (w : Nat) (results : Nat → Nat) (init : Nat → Option Keyboard) (fuel : Nat) :
    Option (List (ArrayIterator × Keyboard)) :=
  match mainFill w fuel 0 { results := results, calls := 0 } (ArrayClass.ctor init) with
  | none => none
  | some (_, keyboardArray) =>
    UseAll (ArrayIterator.iterator w (Option Keyboard)) (fun _ => keyboardArray.view) fuel
      (keyboardArray.GetIterator 0)

/-- The lines `main` writes to `cout` when `UseAll` returns `trace`. -/
def mainOutput (trace : List (ArrayIterator × Keyboard)) : List (List String) :=
  ["Using all keyboards:"] :: trace.map (fun entry => entry.2.Use)

/-! ## Arithmetic of `size_t` counters -/

theorem two_pow_pos_w (w : Nat) : 0 < 2 ^ w := Nat.two_pow_pos w

theorem sizeInc_of_lt {w n : Nat} (h : n + 1 < 2 ^ w) : sizeInc w n = n + 1 := by
  unfold sizeInc
  exact Nat.mod_eq_of_lt h

theorem sizeInc_lt (w n : Nat) : sizeInc w n < 2 ^ w := by
  unfold sizeInc
  exact Nat.mod_lt _ (two_pow_pos_w w)

theorem sizeDec_of_pos {w n : Nat} (h0 : 0 < n) (h : n < 2 ^ w) : sizeDec w n = n - 1 := by
  unfold sizeDec
  have e : n + 2 ^ w - 1 = (n - 1) + 2 ^ w := by omega
  rw [e, Nat.add_mod_right]
  exact Nat.mod_eq_of_lt (by omega)

/-! ## Arrays -/

theorem arrayRead_of_lt {T : Type} (items : Nat → T) {i : Nat} (h : i < MaxSize) :
    arrayRead items i = some (items i) := by
  simp [arrayRead, h]

theorem arrayWrite_same {T : Type} (items : Nat → T) (i : Nat) (x : T) :
    arrayWrite items i x i = x := by
  simp [arrayWrite]

theorem arrayWrite_of_ne {T : Type} (items : Nat → T) {i j : Nat} (x : T) (h : j ≠ i) :
    arrayWrite items i x j = items j := by
  simp [arrayWrite, h]

theorem map_arrayWrite_range {T : Type} (items : Nat → T) (n k : Nat) (x : T) (h : k ≤ n) :
    (List.range k).map (arrayWrite items n x) = (List.range k).map items := by
  apply List.map_congr_left
  intro i hi
  have hi' : i < k := List.mem_range.mp hi
  exact arrayWrite_of_ne items x (by omega)

theorem map_arrayWrite_range_succ {T : Type} (items : Nat → T) (n : Nat) (x : T) :
    (List.range (n + 1)).map (arrayWrite items n x) = (List.range n).map items ++ [x] := by
  rw [List.range_succ, List.map_append, map_arrayWrite_range items n n x (Nat.le_refl n)]
  simp [arrayWrite_same]

/-! ## Traversal by a cursor -/

theorem StackIterator.stackCursorLaws (w : Nat) (T : Type) :
    CursorLaws w (StackIterator.iterator w T)
      StackIterator.StackContainer StackIterator.Pos StackIterator.Size :=
  { first_pos := fun _ => rfl
    first_size := fun _ => rfl
    first_ptr := fun _ => rfl
    next_pos := fun _ => rfl
    next_size := fun _ => rfl
    next_ptr := fun _ => rfl
    isDone := fun _ => rfl
    getCurrent := fun _ _ => rfl }

theorem ArrayIterator.arrayCursorLaws (w : Nat) (T : Type) :
    CursorLaws w (ArrayIterator.iterator w T)
      ArrayIterator.ArrayContainer ArrayIterator.Pos ArrayIterator.Size :=
  { first_pos := fun _ => rfl
    first_size := fun _ => rfl
    first_ptr := fun _ => rfl
    next_pos := fun _ => rfl
    next_size := fun _ => rfl
    next_ptr := fun _ => rfl
    isDone := fun _ => rfl
    getCurrent := fun _ _ => rfl }

/-- The loop started at cursor `pos it` records the elements at the indices
`pos it, ..., size it - 1` of the pointed-to array. -/
theorem traverseFrom_cursor {I T : Type} {w : Nat} {ops : Iterator I T}
    {ptr : I → Ptr} {pos size : I → Nat} (laws : CursorLaws w ops ptr pos size)
    (mem : Memory T) (items : Nat → T) :
    ∀ (fuel : Nat) (it : I), size it < 2 ^ w →
      (∀ i, i < size it → mem (ptr it) i = some (items i)) →
      size it - pos it < fuel →
      traverseFrom ops mem fuel it
        = some ((List.range' (pos it) (size it - pos it)).map items) := by
  intro fuel
  induction fuel with
  | zero => intro it _ _ hf; omega
  | succ fuel ih =>
    intro it hw hmem hf
    unfold traverseFrom
    by_cases hd : size it ≤ pos it
    · have e : size it - pos it = 0 := by omega
      simp [laws.isDone, hd, e]
    · have hlt : pos it < size it := by omega
      have hinc : sizeInc w (pos it) = pos it + 1 := sizeInc_of_lt (by omega)
      have hrec := ih (ops.Next it) (by rw [laws.next_size]; exact hw)
        (by rw [laws.next_size, laws.next_ptr]; exact hmem)
        (by rw [laws.next_size, laws.next_pos, hinc]; omega)
      rw [laws.next_size, laws.next_pos, hinc] at hrec
      have e : size it - pos it = (size it - (pos it + 1)) + 1 := by omega
      simp only [laws.isDone, ge_iff_le, hd, decide_False, Bool.false_eq_true, if_false,
        laws.getCurrent, hmem _ hlt, hrec, Option.map_some']
      rw [e, List.range'_succ, List.map_cons]

/-- A full traversal records the elements at the indices `0, ..., size it - 1`
of the pointed-to array. -/
theorem traverse_cursor {I T : Type} {w : Nat} {ops : Iterator I T}
    {ptr : I → Ptr} {pos size : I → Nat} (laws : CursorLaws w ops ptr pos size)
    (mem : Memory T) (items : Nat → T) (fuel : Nat) (it : I) (hw : size it < 2 ^ w)
    (hmem : ∀ i, i < size it → mem (ptr it) i = some (items i)) (hf : size it < fuel) :
    traverse ops mem fuel it = some ((List.range (size it)).map items) := by
  unfold traverse
  have h := traverseFrom_cursor laws mem items fuel (ops.First it)
    (by rw [laws.first_size]; exact hw)
    (by rw [laws.first_size, laws.first_ptr]; exact hmem)
    (by rw [laws.first_size, laws.first_pos]; omega)
  rw [laws.first_size, laws.first_pos] at h
  rw [h, List.range_eq_range']
  rfl

/-! ## `ArrayClass`: effect of `Add` -/

theorem ArrayClass.Add_of_lt {T : Type} {w : Nat} (hw : MaxSize < 2 ^ w) (a : ArrayClass T)
    (x : T) (h : a.ArraySize < MaxSize) :
    a.Add w x
      = some { Items := arrayWrite a.Items a.ArraySize x, ArraySize := a.ArraySize + 1 } := by
  have hinc : sizeInc w a.ArraySize = a.ArraySize + 1 := sizeInc_of_lt (by omega)
  simp [ArrayClass.Add, ArrayClass.addIndex, h, hinc]

theorem ArrayClass.addAll_spec {T : Type} {w : Nat} (hw : MaxSize < 2 ^ w) :
    ∀ (xs : List T) (a : ArrayClass T), a.ArraySize + xs.length ≤ MaxSize →
      ∃ a', ArrayClass.addAll w a xs = some a' ∧
        a'.ArraySize = a.ArraySize + xs.length ∧
        a'.contents = a.contents ++ xs ∧
        ∀ i, i < a.ArraySize → a'.Items i = a.Items i := by
  intro xs
  induction xs with
  | nil => intro a _; exact ⟨a, rfl, rfl, by simp, fun _ _ => rfl⟩
  | cons x xs ih =>
    intro a hlen
    simp only [List.length_cons] at hlen
    have hlt : a.ArraySize < MaxSize := by omega
    obtain ⟨a', hrun, hsize, hcont, hframe⟩ :=
      ih { Items := arrayWrite a.Items a.ArraySize x, ArraySize := a.ArraySize + 1 }
        (by simp only; omega)
    refine ⟨a', ?_, ?_, ?_, ?_⟩
    · simp only [ArrayClass.addAll, ArrayClass.Add_of_lt hw a x hlt]
      exact hrun
    · rw [hsize]; simp only [List.length_cons]; omega
    · rw [hcont]
      simp only [ArrayClass.contents]
      rw [map_arrayWrite_range_succ]
      simp
    · intro i hi
      rw [hframe i (by simp only; omega)]
      exact arrayWrite_of_ne a.Items x (by omega)

/-! ## `StackClass`: effect of `Push` and `Pop` -/

theorem StackClass.Push_of_lt {T : Type} {w : Nat} (hw : MaxSize < 2 ^ w) (s : StackClass T)
    (x : T) (h : s.Top < MaxSize) :
    s.Push w x = some { Items := arrayWrite s.Items s.Top x, Top := s.Top + 1 } := by
  have hinc : sizeInc w s.Top = s.Top + 1 := sizeInc_of_lt (by omega)
  simp [StackClass.Push, StackClass.pushIndex, h, hinc]

theorem StackClass.Pop_of_pos {T : Type} {w : Nat} (hw : MaxSize < 2 ^ w) (s : StackClass T)
    (h0 : 0 < s.Top) (h : s.Top ≤ MaxSize) :
    s.Pop w = (some (s.Items (s.Top - 1)), { Items := s.Items, Top := s.Top - 1 }) := by
  have hdec : sizeDec w s.Top = s.Top - 1 := sizeDec_of_pos h0 (by omega)
  have hlt : s.Top - 1 < MaxSize := by omega
  simp [StackClass.Pop, StackClass.popIndex, hdec, arrayRead, hlt]

theorem StackOp.withinCapacity_push {T : Type} {lo n : Nat} {x : T} {ops : List (StackOp T)}
    (h : StackOp.withinCapacity lo n (StackOp.push x :: ops) = true) :
    n < MaxSize ∧ StackOp.withinCapacity lo (n + 1) ops = true := by
  simpa [StackOp.withinCapacity] using h

theorem StackOp.withinCapacity_pop {T : Type} {lo n : Nat} {ops : List (StackOp T)}
    (h : StackOp.withinCapacity lo n (StackOp.pop :: ops) = true) :
    lo < n ∧ StackOp.withinCapacity lo (n - 1) ops = true := by
  simpa [StackOp.withinCapacity] using h

/-- A call sequence within capacity runs without an out-of-bounds access, pops
what the reference stack pops, keeps the counter within `lo .. MaxSize` and
leaves the elements below index `lo` as they were. -/
theorem StackClass.run_spec {T : Type} {w : Nat} (hw : MaxSize < 2 ^ w) (lo : Nat) :
    ∀ (ops : List (StackOp T)) (s : StackClass T), s.Top ≤ MaxSize → lo ≤ s.Top →
      StackOp.withinCapacity lo s.Top ops = true →
      ∃ s' popped, StackClass.run w s ops = some (s', popped) ∧
        refStackRun s.contents.reverse ops = some (s'.contents.reverse, popped) ∧
        s'.Top ≤ MaxSize ∧ lo ≤ s'.Top ∧
        s'.Top + StackOp.pops ops = s.Top + StackOp.pushes ops ∧
        ∀ i, i < lo → s'.Items i = s.Items i := by
  intro ops
  induction ops with
  | nil =>
    intro s h1 h2 _
    exact ⟨s, [], rfl, by simp [refStackRun], h1, h2, rfl, fun _ _ => rfl⟩
  | cons op ops ih =>
    intro s hcap hlo hwc
    cases op with
    | push x =>
      obtain ⟨hlt, hrest⟩ := StackOp.withinCapacity_push hwc
      obtain ⟨s', popped, hrun, href, hcap', hlo', hcount, hframe⟩ :=
        ih { Items := arrayWrite s.Items s.Top x, Top := s.Top + 1 }
          (by simp only; omega) (by simp only; omega) hrest
      refine ⟨s', popped, ?_, ?_, hcap', hlo', ?_, ?_⟩
      · simp only [StackClass.run, StackClass.Push_of_lt hw s x hlt]
        exact hrun
      · simp only [StackClass.contents, map_arrayWrite_range_succ, List.reverse_append,
          List.reverse_cons, List.reverse_nil, List.nil_append, List.singleton_append] at href
        simp only [refStackRun, StackClass.contents]
        exact href
      · simp only [StackOp.pops, StackOp.pushes]
        simp only at hcount
        omega
      · intro i hi
        rw [hframe i hi]
        exact arrayWrite_of_ne s.Items x (by omega)
    | pop =>
      obtain ⟨hpos, hrest⟩ := StackOp.withinCapacity_pop hwc
      obtain ⟨s', popped, hrun, href, hcap', hlo', hcount, hframe⟩ :=
        ih { Items := s.Items, Top := s.Top - 1 }
          (by simp only; omega) (by simp only; omega) hrest
      have hsplit : s.contents.reverse
          = s.Items (s.Top - 1)
            :: (StackClass.contents { Items := s.Items, Top := s.Top - 1 }).reverse := by
        have e : s.Top = (s.Top - 1) + 1 := by omega
        simp only [StackClass.contents]
        conv_lhs => rw [e, List.range_succ]
        simp
      refine ⟨s', s.Items (s.Top - 1) :: popped, ?_, ?_, hcap', hlo', ?_, ?_⟩
      · simp only [StackClass.run, StackClass.Pop_of_pos hw s (by omega) hcap, hrun,
          Option.map_some']
      · rw [hsplit]
        simp only [refStackRun, href, Option.map_some']
      · simp only [StackOp.pops, StackOp.pushes]
        simp only at hcount
        omega
      · intro i hi
        exact hframe i hi

/-! ## Traversal of a container through its iterator -/

theorem ArrayClass.array_traverse_view {T : Type} {w : Nat} (hw : MaxSize < 2 ^ w)
    (a a' : ArrayClass T) (ha : a.ArraySize ≤ MaxSize) (items : Ptr) (mem : Memory T)
    (hmem : mem items = a'.view) (fuel : Nat) (hf : a.ArraySize < fuel) :
    traverse (ArrayIterator.iterator w T) mem fuel (a.GetIterator items)
      = some ((List.range a.ArraySize).map a'.Items) := by
  refine traverse_cursor (ArrayIterator.arrayCursorLaws w T) mem a'.Items fuel
    (a.GetIterator items) ?_ ?_ hf
  · show a.ArraySize < 2 ^ w
    omega
  · intro i hi
    have hi' : i < a.ArraySize := hi
    show mem items i = some (a'.Items i)
    rw [hmem]
    exact arrayRead_of_lt a'.Items (by omega)

theorem StackClass.stack_traverse_view {T : Type} {w : Nat} (hw : MaxSize < 2 ^ w)
    (s s' : StackClass T) (hs : s.Top ≤ MaxSize) (items : Ptr) (mem : Memory T)
    (hmem : mem items = s'.view) (fuel : Nat) (hf : s.Top < fuel) :
    traverse (StackIterator.iterator w T) mem fuel (s.GetIterator items)
      = some ((List.range s.Top).map s'.Items) := by
  refine traverse_cursor (StackIterator.stackCursorLaws w T) mem s'.Items fuel
    (s.GetIterator items) ?_ ?_ hf
  · show s.Top < 2 ^ w
    omega
  · intro i hi
    have hi' : i < s.Top := hi
    show mem items i = some (s'.Items i)
    rw [hmem]
    exact arrayRead_of_lt s'.Items (by omega)

theorem StackClass.stack_contents_ctor {T : Type} (init : Nat → T) :
    (StackClass.ctor init).contents = [] := rfl

theorem ArrayClass.array_contents_ctor {T : Type} (init : Nat → T) :
    (ArrayClass.ctor init).contents = [] := rfl

/-! ## The claims -/

/-- C1: after `Add(x_1); ...; Add(x_n)` on a freshly constructed `ArrayClass`
with `n ≤ MaxSize`, every `Add` stays inside `Items`, `Size()` is `n`, and a full
traversal of `GetIterator()` records exactly `[x_1, ..., x_n]`, in `Add` order,
whenever the loop is given more than `n` evaluations of its condition. -/
theorem ArrayClass.traverse_after_addAll {T : Type} (w : Nat) (hw : MaxSize < 2 ^ w)
    (init : Nat → T) (xs : List T) (hn : xs.length ≤ MaxSize) :
    ∃ a, ArrayClass.addAll w (ArrayClass.ctor init) xs = some a ∧
      a.Size = xs.length ∧
      ∀ (items : Ptr) (mem : Memory T), mem items = a.view →
        ∀ fuel, xs.length < fuel →
          traverse (ArrayIterator.iterator w T) mem fuel (a.GetIterator items) = some xs := by
  obtain ⟨a, hrun, hsize, hcont, _⟩ :=
    ArrayClass.addAll_spec hw xs (ArrayClass.ctor init) (by simp [ArrayClass.ctor]; exact hn)
  have hsize' : a.ArraySize = xs.length := by simpa [ArrayClass.ctor] using hsize
  refine ⟨a, hrun, hsize', ?_⟩
  intro items mem hmem fuel hf
  rw [ArrayClass.array_traverse_view hw a a (by omega) items mem hmem fuel (by omega)]
  have hc : a.contents = xs := by simpa [ArrayClass.array_contents_ctor] using hcont
  exact congrArg some hc

/-- Witness of C1: the scenario `Add(3); Add(1); Add(4)` on a machine whose
`size_t` has 64 bits. -/
theorem ArrayClass.traverse_after_addAll_witness :
    MaxSize < 2 ^ 64 ∧ ([3, 1, 4] : List Nat).length ≤ MaxSize ∧
    ∃ a, ArrayClass.addAll 64 (ArrayClass.ctor (fun _ => 0)) [3, 1, 4] = some a ∧
      a.Size = ([3, 1, 4] : List Nat).length ∧
      ∀ (items : Ptr) (mem : Memory Nat), mem items = a.view →
        ∀ fuel, ([3, 1, 4] : List Nat).length < fuel →
          traverse (ArrayIterator.iterator 64 Nat) mem fuel (a.GetIterator items)
            = some [3, 1, 4] :=
  ⟨by decide, by decide,
    ArrayClass.traverse_after_addAll 64 (by decide) (fun _ => 0) [3, 1, 4] (by decide)⟩

/-- C2: after a sequence of `Push` / `Pop` calls on a freshly constructed
`StackClass` that stays within capacity and never pops the empty stack, no call
leaves `Items`, and a full traversal of `GetIterator()` records exactly
`Size()` elements: the elements the reference stack still holds, from the
oldest push to the newest, which are `Items[0 .. Top-1]`. -/
theorem StackClass.traverse_after_run {T : Type} (w : Nat) (hw : MaxSize < 2 ^ w)
    (init : Nat → T) (ops : List (StackOp T))
    (hcap : StackOp.withinCapacity 0 0 ops = true) :
    ∃ s popped st, StackClass.run w (StackClass.ctor init) ops = some (s, popped) ∧
      refStackRun [] ops = some (st, popped) ∧
      st.reverse = (List.range s.Top).map s.Items ∧
      st.length = s.Size ∧
      ∀ (items : Ptr) (mem : Memory T), mem items = s.view →
        ∀ fuel, s.Size < fuel →
          traverse (StackIterator.iterator w T) mem fuel (s.GetIterator items)
            = some st.reverse := by
  obtain ⟨s, popped, hrun, href, hcap', _, _, _⟩ :=
    StackClass.run_spec hw 0 ops (StackClass.ctor init) (Nat.zero_le _) (Nat.le_refl _) hcap
  refine ⟨s, popped, s.contents.reverse, hrun, ?_, ?_, ?_, ?_⟩
  · simpa [StackClass.stack_contents_ctor] using href
  · simp [StackClass.contents]
  · simp [StackClass.contents, StackClass.Size]
  · intro items mem hmem fuel hf
    rw [StackClass.stack_traverse_view hw s s hcap' items mem hmem fuel hf]
    simp [StackClass.contents]

/-- Witness of C2: the scenario `Push(5); Push(2); Pop()`, whose iterator
yields `[5]`. -/
theorem StackClass.traverse_after_run_witness :
    (MaxSize < 2 ^ 64 ∧
      StackOp.withinCapacity 0 0 [StackOp.push 5, StackOp.push 2, StackOp.pop] = true) ∧
    (∃ s popped st,
      StackClass.run 64 (StackClass.ctor (fun _ => 0))
        [StackOp.push 5, StackOp.push 2, StackOp.pop] = some (s, popped) ∧
      refStackRun [] [StackOp.push 5, StackOp.push 2, StackOp.pop] = some (st, popped) ∧
      st.reverse = (List.range s.Top).map s.Items ∧
      st.length = s.Size ∧
      ∀ (items : Ptr) (mem : Memory Nat), mem items = s.view →
        ∀ fuel, s.Size < fuel →
          traverse (StackIterator.iterator 64 Nat) mem fuel (s.GetIterator items)
            = some st.reverse) ∧
    refStackRun [] [StackOp.push 5, StackOp.push 2, StackOp.pop] = some ([5], [2]) ∧
    (StackClass.run 64 (StackClass.ctor (fun _ => 0))
        [StackOp.push 5, StackOp.push 2, StackOp.pop]).map
      (fun r => (r.1.Size, r.2,
        traverse (StackIterator.iterator 64 Nat) (fun _ => r.1.view) 2 (r.1.GetIterator 0)))
      = some (1, [2], some [5]) :=
  ⟨⟨by decide, by decide⟩,
    StackClass.traverse_after_run 64 (by decide) (fun _ => 0)
      [StackOp.push 5, StackOp.push 2, StackOp.pop] (by decide),
    by decide, by decide⟩

/-- C3: `StackClass` is a LIFO stack.  For a sequence of `Push` / `Pop` calls on
a freshly constructed stack that stays within capacity and never pops the
empty stack, the `Pop` calls return, in order, the values the reference
list-based stack returns, `Size()` is the number of pushes minus the number of
pops (and the size of the reference stack), `IsEmpty()` holds iff `Size()` is
zero, and if there is room `Push(x)` followed by `Pop()` returns `x` and
restores `Size()`. -/
theorem StackClass.run_lifo {T : Type} (w : Nat) (hw : MaxSize < 2 ^ w)
    (init : Nat → T) (ops : List (StackOp T))
    (hcap : StackOp.withinCapacity 0 0 ops = true) :
    ∃ s popped st, StackClass.run w (StackClass.ctor init) ops = some (s, popped) ∧
      refStackRun [] ops = some (st, popped) ∧
      s.Size = st.length ∧
      s.Size + StackOp.pops ops = StackOp.pushes ops ∧
      (s.IsEmpty = true ↔ s.Size = 0) ∧
      (s.Size < MaxSize → ∀ x, ∃ s1, s.Push w x = some s1 ∧
        (s1.Pop w).1 = some x ∧ (s1.Pop w).2.Size = s.Size) := by
  obtain ⟨s, popped, hrun, href, hcap', _, hcount, _⟩ :=
    StackClass.run_spec hw 0 ops (StackClass.ctor init) (Nat.zero_le _) (Nat.le_refl _) hcap
  refine ⟨s, popped, s.contents.reverse, hrun, ?_, ?_, ?_, ?_, ?_⟩
  · simpa [StackClass.stack_contents_ctor] using href
  · simp [StackClass.contents, StackClass.Size]
  · simpa [StackClass.ctor, StackClass.Size] using hcount
  · simp [StackClass.IsEmpty, StackClass.Size]
  · intro hlt x
    have hlt' : s.Top < MaxSize := hlt
    refine ⟨_, StackClass.Push_of_lt hw s x hlt', ?_, ?_⟩
    · rw [StackClass.Pop_of_pos hw _ (by simp only; omega) (by simp only; omega)]
      simp [arrayWrite_same]
    · rw [StackClass.Pop_of_pos hw _ (by simp only; omega) (by simp only; omega)]
      simp [StackClass.Size]

/-- Witness of C3: the scenario `Push(5); Push(2); Pop()`, where `Pop()`
returns `2` and leaves `Size() == 1`. -/
theorem StackClass.run_lifo_witness :
    (MaxSize < 2 ^ 64 ∧
      StackOp.withinCapacity 0 0 [StackOp.push 5, StackOp.push 2, StackOp.pop] = true) ∧
    (∃ s popped st,
      StackClass.run 64 (StackClass.ctor (fun _ => 0))
        [StackOp.push 5, StackOp.push 2, StackOp.pop] = some (s, popped) ∧
      refStackRun [] [StackOp.push 5, StackOp.push 2, StackOp.pop] = some (st, popped) ∧
      s.Size = st.length ∧
      s.Size + StackOp.pops [StackOp.push 5, StackOp.push 2, StackOp.pop]
        = StackOp.pushes [StackOp.push 5, StackOp.push 2, StackOp.pop] ∧
      (s.IsEmpty = true ↔ s.Size = 0) ∧
      (s.Size < MaxSize → ∀ x, ∃ s1, s.Push 64 x = some s1 ∧
        (s1.Pop 64).1 = some x ∧ (s1.Pop 64).2.Size = s.Size)) ∧
    (StackClass.run 64 (StackClass.ctor (fun _ => 0))
        [StackOp.push 5, StackOp.push 2, StackOp.pop]).map
      (fun r => (r.2, r.1.Size, r.1.IsEmpty)) = some ([2], 1, false) :=
  ⟨⟨by decide, by decide⟩,
    StackClass.run_lifo 64 (by decide) (fun _ => 0)
      [StackOp.push 5, StackOp.push 2, StackOp.pop] (by decide),
    by decide⟩

/-- C4: for every `StackClass` and `ArrayClass` state, `First()` followed by
`IsDone()` on the iterator returned by `GetIterator()` is false iff the size of
the container was non-zero when the iterator was created, and true iff it was
zero; the iterator of an empty `ArrayClass` is done right after `First()`. -/
theorem first_isDone_iff_empty {T : Type} (s : StackClass T) (a : ArrayClass T)
    (items : Ptr) (init : Nat → T) :
    ((StackIterator.First (s.GetIterator items)).IsDone = false ↔ s.Size ≠ 0) ∧
    ((StackIterator.First (s.GetIterator items)).IsDone = true ↔ s.Size = 0) ∧
    ((ArrayIterator.First (a.GetIterator items)).IsDone = false ↔ a.Size ≠ 0) ∧
    ((ArrayIterator.First (a.GetIterator items)).IsDone = true ↔ a.Size = 0) ∧
    (ArrayIterator.First ((ArrayClass.ctor init).GetIterator items)).IsDone = true := by
  refine ⟨?_, ?_, ?_, ?_, ?_⟩
  · simp [StackIterator.First, StackIterator.IsDone, StackClass.GetIterator,
      StackIterator.ctor, StackClass.Size]
  · simp [StackIterator.First, StackIterator.IsDone, StackClass.GetIterator,
      StackIterator.ctor, StackClass.Size]
  · simp [ArrayIterator.First, ArrayIterator.IsDone, ArrayClass.GetIterator,
      ArrayIterator.ctor, ArrayClass.Size]
  · simp [ArrayIterator.First, ArrayIterator.IsDone, ArrayClass.GetIterator,
      ArrayIterator.ctor, ArrayClass.Size]
  · simp [ArrayIterator.First, ArrayIterator.IsDone, ArrayClass.GetIterator,
      ArrayIterator.ctor, ArrayClass.ctor]

/-! ## The cursor state machine -/

theorem nextTimes_cursor {I T : Type} {w : Nat} {ops : Iterator I T}
    {ptr : I → Ptr} {pos size : I → Nat} (laws : CursorLaws w ops ptr pos size) :
    ∀ (k : Nat) (it : I), pos it + k < 2 ^ w →
      pos (ops.nextTimes k it) = pos it + k ∧ size (ops.nextTimes k it) = size it := by
  intro k
  induction k with
  | zero => intro it _; exact ⟨rfl, rfl⟩
  | succ k ih =>
    intro it h
    have hinc : sizeInc w (pos it) = pos it + 1 := sizeInc_of_lt (by omega)
    obtain ⟨h1, h2⟩ := ih (ops.Next it) (by rw [laws.next_pos, hinc]; omega)
    rw [laws.next_pos, hinc] at h1
    rw [laws.next_size] at h2
    exact ⟨by simp only [Iterator.nextTimes, h1]; omega, by simp only [Iterator.nextTimes, h2]⟩

theorem doneAfterExactly_cursor {I T : Type} {w : Nat} {ops : Iterator I T}
    {ptr : I → Ptr} {pos size : I → Nat} (laws : CursorLaws w ops ptr pos size)
    (n : Nat) (hn : n + 1 < 2 ^ w) (start : I) (hpos : pos start = 0) (hsize : size start = n) :
    ops.DoneAfterExactly n start := by
  have key : ∀ k, k ≤ n + 1 → ops.IsDone (ops.nextTimes k start) = decide (n ≤ k) := by
    intro k hk
    obtain ⟨h1, h2⟩ := nextTimes_cursor laws k start (by omega)
    rw [laws.isDone, h1, h2, hpos, hsize]
    simp
  refine ⟨?_, ?_, ?_⟩
  · intro k hk
    rw [key k (by omega)]
    simp; omega
  · rw [key n (by omega)]
    simp
  · rw [key (n + 1) (Nat.le_refl _)]
    simp

theorem calls_cons {I T : Type} (ops : Iterator I T) (it : I) (c : IterCall)
    (cs : List IterCall) : ops.calls it (c :: cs) = ops.calls (ops.call it c) cs := rfl

theorem calls_cursor {I T : Type} {w : Nat} {ops : Iterator I T}
    {ptr : I → Ptr} {pos size : I → Nat} (laws : CursorLaws w ops ptr pos size) :
    ∀ (cs : List IterCall) (it : I), pos it < 2 ^ w → size it < 2 ^ w →
      size (ops.calls it cs) = size it ∧ ptr (ops.calls it cs) = ptr it ∧
      pos (ops.calls it cs) < 2 ^ w ∧
      (ops.disciplined it cs = true → pos it ≤ size it →
        pos (ops.calls it cs) ≤ size it) := by
  intro cs
  induction cs with
  | nil => intro it hp _; exact ⟨rfl, rfl, hp, fun _ h => h⟩
  | cons c cs ih =>
    intro it hp hs
    cases c with
    | first =>
      obtain ⟨h1, h2, h3, h4⟩ := ih (ops.First it)
        (by rw [laws.first_pos]; exact two_pow_pos_w w) (by rw [laws.first_size]; exact hs)
      rw [laws.first_size] at h1 h4
      rw [laws.first_ptr] at h2
      refine ⟨h1, h2, h3, ?_⟩
      intro hd _
      exact h4 hd (by rw [laws.first_pos]; exact Nat.zero_le _)
    | next =>
      obtain ⟨h1, h2, h3, h4⟩ := ih (ops.Next it)
        (by rw [laws.next_pos]; exact sizeInc_lt w _) (by rw [laws.next_size]; exact hs)
      rw [laws.next_size] at h1 h4
      rw [laws.next_ptr] at h2
      refine ⟨h1, h2, h3, ?_⟩
      intro hd _
      simp only [Iterator.disciplined, Bool.and_eq_true, Bool.not_eq_true', laws.isDone,
        decide_eq_false_iff_not, ge_iff_le, not_le] at hd
      have hinc : sizeInc w (pos it) = pos it + 1 := sizeInc_of_lt (by omega)
      exact h4 hd.2 (by rw [laws.next_pos, hinc]; omega)

/-- C5, amended: from the initial state of a `StackIterator` or `ArrayIterator`
with snapshot size `size` (as created, or after `First()`), where `size + 1` is
representable in `size_t`, `IsDone()` is false after `k < size` calls of
`Next()`, true after exactly `size` calls, and still true after the
`(size+1)`-th call. -/
theorem next_reaches_done {T : Type} (w size : Nat) (hsize : size + 1 < 2 ^ w)
    (p : Ptr) (it : StackIterator) (jt : ArrayIterator)
    (hit : it.Size = size) (hjt : jt.Size = size) :
    (StackIterator.iterator w T).DoneAfterExactly size (StackIterator.ctor p size) ∧
    (StackIterator.iterator w T).DoneAfterExactly size it.First ∧
    (ArrayIterator.iterator w T).DoneAfterExactly size (ArrayIterator.ctor p size) ∧
    (ArrayIterator.iterator w T).DoneAfterExactly size jt.First :=
  ⟨doneAfterExactly_cursor (StackIterator.stackCursorLaws w T) size hsize _ rfl rfl,
    doneAfterExactly_cursor (StackIterator.stackCursorLaws w T) size hsize _ rfl hit,
    doneAfterExactly_cursor (ArrayIterator.arrayCursorLaws w T) size hsize _ rfl rfl,
    doneAfterExactly_cursor (ArrayIterator.arrayCursorLaws w T) size hsize _ rfl hjt⟩

/-- Witness of the amended C5: iterators of snapshot size 3 on a machine whose
`size_t` has 64 bits, one of them in the middle of a traversal before
`First()`. -/
theorem next_reaches_done_witness :
    (3 + 1 < 2 ^ 64 ∧
      (StackIterator.mk 0 2 3).Size = 3 ∧ (ArrayIterator.mk 0 2 3).Size = 3) ∧
    ((StackIterator.iterator 64 Nat).DoneAfterExactly 3 (StackIterator.ctor 0 3) ∧
    (StackIterator.iterator 64 Nat).DoneAfterExactly 3 (StackIterator.mk 0 2 3).First ∧
    (ArrayIterator.iterator 64 Nat).DoneAfterExactly 3 (ArrayIterator.ctor 0 3) ∧
    (ArrayIterator.iterator 64 Nat).DoneAfterExactly 3 (ArrayIterator.mk 0 2 3).First) :=
  ⟨⟨by decide, rfl, rfl⟩, next_reaches_done 64 3 (by decide) 0 _ _ rfl rfl⟩

/-- C6, as stated, fails: on the iterator of a one-element container the call
sequence `Next(); Next()` first reaches done with the cursor at `Size`, and the
second `Next()`, issued while `IsDone()` is already true, changes the state and
moves the cursor to `2`, past `Size = 1`, where `IsDone()` is true although the
cursor differs from `Size`. -/
theorem cursor_advances_past_size :
    (StackIterator.iterator 64 Nat).IsDone
        ((StackIterator.iterator 64 Nat).calls (StackIterator.ctor 0 1) [IterCall.next]) = true ∧
    (StackIterator.iterator 64 Nat).calls (StackIterator.ctor 0 1) [IterCall.next, IterCall.next]
      ≠ (StackIterator.iterator 64 Nat).calls (StackIterator.ctor 0 1) [IterCall.next] ∧
    ((StackIterator.iterator 64 Nat).calls (StackIterator.ctor 0 1)
        [IterCall.next, IterCall.next]).Pos = 2 ∧
    ((StackIterator.iterator 64 Nat).calls (StackIterator.ctor 0 1)
        [IterCall.next, IterCall.next]).Size = 1 ∧
    ¬ (((StackIterator.iterator 64 Nat).calls (StackIterator.ctor 0 1)
          [IterCall.next, IterCall.next]).Pos
        ≤ ((StackIterator.iterator 64 Nat).calls (StackIterator.ctor 0 1)
          [IterCall.next, IterCall.next]).Size) ∧
    (StackIterator.iterator 64 Nat).IsDone
        ((StackIterator.iterator 64 Nat).calls (StackIterator.ctor 0 1)
          [IterCall.next, IterCall.next]) = true ∧
    (ArrayIterator.iterator 64 Nat).calls (ArrayIterator.ctor 0 1) [IterCall.next, IterCall.next]
      = ArrayIterator.mk 0 2 1 := by
  decide

/-- C6, amended: after any sequence of `First()` and `Next()` calls on a freshly
created `StackIterator` or `ArrayIterator` the snapshot size and the pointer are
those of creation, the cursor is a `size_t` value, and `IsDone()` is true iff
`Pos >= Size`.  When `Next()` was only called while `IsDone()` was false, the
cursor satisfies `Pos <= Size` and `IsDone()` is true iff `Pos == Size`.  A
`Next()` called while `IsDone()` is true moves the cursor to `Pos + 1`, and
`IsDone()` stays true, as long as `Pos + 1` is representable. -/
theorem cursor_invariant {T : Type} (w size : Nat) (hsize : size < 2 ^ w) (p : Ptr)
    (cs : List IterCall) (r : StackIterator) (q : ArrayIterator)
    (hr : r = (StackIterator.iterator w T).calls (StackIterator.ctor p size) cs)
    (hq : q = (ArrayIterator.iterator w T).calls (ArrayIterator.ctor p size) cs) :
    (r.Size = size ∧ r.StackContainer = p ∧ r.Pos < 2 ^ w ∧
      (r.IsDone = true ↔ size ≤ r.Pos) ∧
      ((StackIterator.iterator w T).disciplined (StackIterator.ctor p size) cs = true →
        r.Pos ≤ size ∧ (r.IsDone = true ↔ r.Pos = size)) ∧
      (r.IsDone = true → r.Pos + 1 < 2 ^ w →
        (StackIterator.Next w r).Pos = r.Pos + 1 ∧ (StackIterator.Next w r).IsDone = true)) ∧
    (q.Size = size ∧ q.ArrayContainer = p ∧ q.Pos < 2 ^ w ∧
      (q.IsDone = true ↔ size ≤ q.Pos) ∧
      ((ArrayIterator.iterator w T).disciplined (ArrayIterator.ctor p size) cs = true →
        q.Pos ≤ size ∧ (q.IsDone = true ↔ q.Pos = size)) ∧
      (q.IsDone = true → q.Pos + 1 < 2 ^ w →
        (ArrayIterator.Next w q).Pos = q.Pos + 1 ∧ (ArrayIterator.Next w q).IsDone = true)) := by
  constructor
  · obtain ⟨h1, h2, h3, h4⟩ := calls_cursor (StackIterator.stackCursorLaws w T) cs
      (StackIterator.ctor p size) (two_pow_pos_w w) hsize
    rw [← hr] at h1 h2 h3 h4
    have h1' : r.Size = size := h1
    refine ⟨h1', h2, h3, ?_, ?_, ?_⟩
    · simp [StackIterator.IsDone, h1']
    · intro hd
      have hle : r.Pos ≤ size := h4 hd (Nat.zero_le _)
      refine ⟨hle, ?_⟩
      simp only [StackIterator.IsDone, h1', ge_iff_le, decide_eq_true_eq]
      omega
    · intro hdone hrep
      simp only [StackIterator.IsDone, h1', ge_iff_le, decide_eq_true_eq] at hdone
      simp only [StackIterator.Next, StackIterator.IsDone, sizeInc_of_lt hrep, h1', ge_iff_le,
        decide_eq_true_eq, true_and]
      omega
  · obtain ⟨h1, h2, h3, h4⟩ := calls_cursor (ArrayIterator.arrayCursorLaws w T) cs
      (ArrayIterator.ctor p size) (two_pow_pos_w w) hsize
    rw [← hq] at h1 h2 h3 h4
    have h1' : q.Size = size := h1
    refine ⟨h1', h2, h3, ?_, ?_, ?_⟩
    · simp [ArrayIterator.IsDone, h1']
    · intro hd
      have hle : q.Pos ≤ size := h4 hd (Nat.zero_le _)
      refine ⟨hle, ?_⟩
      simp only [ArrayIterator.IsDone, h1', ge_iff_le, decide_eq_true_eq]
      omega
    · intro hdone hrep
      simp only [ArrayIterator.IsDone, h1', ge_iff_le, decide_eq_true_eq] at hdone
      simp only [ArrayIterator.Next, ArrayIterator.IsDone, sizeInc_of_lt hrep, h1', ge_iff_le,
        decide_eq_true_eq, true_and]
      omega

/-- Witness of the amended C6: the calls `Next(); Next(); First(); Next()` on
iterators of snapshot size 3, which leave the cursor at 1. -/
theorem cursor_invariant_witness :
    ((3 : Nat) < 2 ^ 64 ∧
      StackIterator.mk 0 1 3 = (StackIterator.iterator 64 Nat).calls (StackIterator.ctor 0 3)
        [IterCall.next, IterCall.next, IterCall.first, IterCall.next] ∧
      ArrayIterator.mk 0 1 3 = (ArrayIterator.iterator 64 Nat).calls (ArrayIterator.ctor 0 3)
        [IterCall.next, IterCall.next, IterCall.first, IterCall.next]) ∧
    ((StackIterator.mk 0 1 3).Size = 3 ∧ (StackIterator.mk 0 1 3).StackContainer = 0 ∧
      (StackIterator.mk 0 1 3).Pos < 2 ^ 64 ∧
      ((StackIterator.mk 0 1 3).IsDone = true ↔ 3 ≤ (StackIterator.mk 0 1 3).Pos) ∧
      ((StackIterator.iterator 64 Nat).disciplined (StackIterator.ctor 0 3)
          [IterCall.next, IterCall.next, IterCall.first, IterCall.next] = true →
        (StackIterator.mk 0 1 3).Pos ≤ 3 ∧
        ((StackIterator.mk 0 1 3).IsDone = true ↔ (StackIterator.mk 0 1 3).Pos = 3)) ∧
      ((StackIterator.mk 0 1 3).IsDone = true → (StackIterator.mk 0 1 3).Pos + 1 < 2 ^ 64 →
        (StackIterator.Next 64 (StackIterator.mk 0 1 3)).Pos = (StackIterator.mk 0 1 3).Pos + 1 ∧
        (StackIterator.Next 64 (StackIterator.mk 0 1 3)).IsDone = true)) ∧
    ((ArrayIterator.mk 0 1 3).Size = 3 ∧ (ArrayIterator.mk 0 1 3).ArrayContainer = 0 ∧
      (ArrayIterator.mk 0 1 3).Pos < 2 ^ 64 ∧
      ((ArrayIterator.mk 0 1 3).IsDone = true ↔ 3 ≤ (ArrayIterator.mk 0 1 3).Pos) ∧
      ((ArrayIterator.iterator 64 Nat).disciplined (ArrayIterator.ctor 0 3)
          [IterCall.next, IterCall.next, IterCall.first, IterCall.next] = true →
        (ArrayIterator.mk 0 1 3).Pos ≤ 3 ∧
        ((ArrayIterator.mk 0 1 3).IsDone = true ↔ (ArrayIterator.mk 0 1 3).Pos = 3)) ∧
      ((ArrayIterator.mk 0 1 3).IsDone = true → (ArrayIterator.mk 0 1 3).Pos + 1 < 2 ^ 64 →
        (ArrayIterator.Next 64 (ArrayIterator.mk 0 1 3)).Pos = (ArrayIterator.mk 0 1 3).Pos + 1 ∧
        (ArrayIterator.Next 64 (ArrayIterator.mk 0 1 3)).IsDone = true)) :=
  ⟨⟨by decide, by decide, by decide⟩,
    cursor_invariant 64 3 (by decide) 0
      [IterCall.next, IterCall.next, IterCall.first, IterCall.next]
      (StackIterator.mk 0 1 3) (ArrayIterator.mk 0 1 3) (by decide) (by decide)⟩

/-- C7: `First()` is a reset and is idempotent.  In every state a
`StackIterator` or `ArrayIterator` reaches from creation by `First()` and
`Next()` calls, `First()` produces exactly the state of creation (cursor 0, same
snapshot size, same pointer), which is done iff the snapshot size is zero, and
`First(); First()` yields the same state as a single `First()`. -/
theorem first_resets {T : Type} (w : Nat) (p : Ptr) (size : Nat) (cs : List IterCall)
    (it : StackIterator) (jt : ArrayIterator) :
    (StackIterator.First ((StackIterator.iterator w T).calls (StackIterator.ctor p size) cs)
        = StackIterator.ctor p size ∧
      (StackIterator.ctor p size).Pos = 0 ∧
      ((StackIterator.ctor p size).IsDone = true ↔ size = 0) ∧
      it.First = StackIterator.ctor it.StackContainer it.Size ∧
      it.First.First = it.First) ∧
    (ArrayIterator.First ((ArrayIterator.iterator w T).calls (ArrayIterator.ctor p size) cs)
        = ArrayIterator.ctor p size ∧
      (ArrayIterator.ctor p size).Pos = 0 ∧
      ((ArrayIterator.ctor p size).IsDone = true ↔ size = 0) ∧
      jt.First = ArrayIterator.ctor jt.ArrayContainer jt.Size ∧
      jt.First.First = jt.First) := by
  have hs : ∀ (cs : List IterCall) (s : StackIterator),
      ((StackIterator.iterator w T).calls s cs).Size = s.Size ∧
      ((StackIterator.iterator w T).calls s cs).StackContainer = s.StackContainer := by
    intro cs
    induction cs with
    | nil => intro s; exact ⟨rfl, rfl⟩
    | cons c cs ih =>
      intro s
      rw [calls_cons]
      cases c with
      | first => exact ih _
      | next => exact ih _
  have ha : ∀ (cs : List IterCall) (a : ArrayIterator),
      ((ArrayIterator.iterator w T).calls a cs).Size = a.Size ∧
      ((ArrayIterator.iterator w T).calls a cs).ArrayContainer = a.ArrayContainer := by
    intro cs
    induction cs with
    | nil => intro a; exact ⟨rfl, rfl⟩
    | cons c cs ih =>
      intro a
      rw [calls_cons]
      cases c with
      | first => exact ih _
      | next => exact ih _
  refine ⟨⟨?_, rfl, ?_, rfl, rfl⟩, ⟨?_, rfl, ?_, rfl, rfl⟩⟩
  · obtain ⟨h1, h2⟩ := hs cs (StackIterator.ctor p size)
    simp only [StackIterator.First, h1, h2]
    rfl
  · simp [StackIterator.IsDone, StackIterator.ctor]
  · obtain ⟨h1, h2⟩ := ha cs (ArrayIterator.ctor p size)
    simp only [ArrayIterator.First, h1, h2]
    rfl
  · simp [ArrayIterator.IsDone, ArrayIterator.ctor]

/-! ## The decorator -/

theorem IteratorDecorator.calls_It {I T : Type} (ops : Iterator I T) :
    ∀ (cs : List IterCall) (d : IteratorDecorator I),
      ((IteratorDecorator.iterator ops).calls d cs).It = ops.calls d.It cs := by
  intro cs
  induction cs with
  | nil => intro d; rfl
  | cons c cs ih =>
    intro d
    rw [calls_cons, calls_cons, ih]
    cases c <;> rfl

theorem IteratorDecorator.traverseFrom_eq {I T : Type} (ops : Iterator I T) (mem : Memory T) :
    ∀ (fuel : Nat) (d : IteratorDecorator I),
      traverseFrom (IteratorDecorator.iterator ops) mem fuel d
        = traverseFrom ops mem fuel d.It := by
  intro fuel
  induction fuel with
  | zero => intro d; rfl
  | succ fuel ih =>
    intro d
    simp only [traverseFrom]
    have hnext : ((IteratorDecorator.iterator ops).Next d).It = ops.Next d.It := rfl
    have hdone : (IteratorDecorator.iterator ops).IsDone d = ops.IsDone d.It := rfl
    have hcur : (IteratorDecorator.iterator ops).GetCurrent mem d = ops.GetCurrent mem d.It := rfl
    rw [hdone, hcur, ih, hnext]

/-- C8: decorator transparency.  For every iterator implementation `ops`
(`StackIterator`, `ArrayIterator`, a decorator, or any other) and every state
`it` of it, an unmodified `IteratorDecorator` wrapping `it` wraps, after any
sequence of `First()` / `Next()` calls, the state the wrapped iterator reaches
by the same calls; its `IsDone()` and `GetCurrent()` return the values of the
wrapped iterator, and a full traversal through the decorator yields the result
of the traversal of the wrapped iterator. -/
theorem IteratorDecorator.transparent {I T : Type} (ops : Iterator I T) (it : I)
    (cs : List IterCall) (mem : Memory T) (fuel : Nat) :
    ((IteratorDecorator.iterator ops).calls (IteratorDecorator.ctor it) cs).It
      = ops.calls it cs ∧
    (IteratorDecorator.iterator ops).IsDone
        ((IteratorDecorator.iterator ops).calls (IteratorDecorator.ctor it) cs)
      = ops.IsDone (ops.calls it cs) ∧
    (IteratorDecorator.iterator ops).GetCurrent mem
        ((IteratorDecorator.iterator ops).calls (IteratorDecorator.ctor it) cs)
      = ops.GetCurrent mem (ops.calls it cs) ∧
    traverse (IteratorDecorator.iterator ops) mem fuel
        ((IteratorDecorator.iterator ops).calls (IteratorDecorator.ctor it) cs)
      = traverse ops mem fuel (ops.calls it cs) ∧
    traverse (IteratorDecorator.iterator (IteratorDecorator.iterator ops)) mem fuel
        (IteratorDecorator.ctor (IteratorDecorator.ctor it))
      = traverse ops mem fuel it := by
  have h := IteratorDecorator.calls_It ops cs (IteratorDecorator.ctor it)
  have h' : ((IteratorDecorator.iterator ops).calls (IteratorDecorator.ctor it) cs).It
      = ops.calls it cs := h
  refine ⟨h', ?_, ?_, ?_, ?_⟩
  · show ops.IsDone _ = _
    rw [h']
  · show ops.GetCurrent mem _ = _
    rw [h']
  · unfold traverse
    rw [IteratorDecorator.traverseFrom_eq]
    show traverseFrom ops mem fuel (ops.First _) = _
    rw [h']
  · unfold traverse
    rw [IteratorDecorator.traverseFrom_eq, IteratorDecorator.traverseFrom_eq]
    rfl

/-! ## Iterators and later mutations of the container -/

/-- C9, as stated, fails for `StackClass`: the iterator created after `Push(5)`
yields `[5]`, the content of the stack at that time, but after the later calls
`Pop(); Push(7)` on the stack a full traversal by the same iterator yields
`[7]`. -/
theorem stack_iterator_observes_mutation :
    (StackClass.run 64 (StackClass.ctor (fun _ => 0)) [StackOp.push 5]).bind
      (fun r => (StackClass.run 64 r.1 [StackOp.pop, StackOp.push 7]).map
        (fun r' =>
          (r.1.contents,
            traverse (StackIterator.iterator 64 Nat) (fun _ => r.1.view) 2 (r.1.GetIterator 0),
            traverse (StackIterator.iterator 64 Nat) (fun _ => r'.1.view) 2 (r.1.GetIterator 0))))
      = some ([5], some [5], some [7]) := by
  decide

/-- C9, amended: an iterator keeps the element count of its creation and reads
the elements through its pointer to the live backing store.  After later
`Push` / `Pop` calls on the stack, or `Add` calls on the array, within capacity
and without `Pop` on the empty stack, a full traversal yields exactly as many
elements as the container held at creation, namely the current content of
`Items[0 .. n-1]`.  These are the elements held at creation for an `ArrayClass`,
and for a `StackClass` whenever its size did not drop below the snapshot size
`n` in between. -/
theorem iterator_after_mutation {T : Type} (w : Nat) (hw : MaxSize < 2 ^ w)
    (s : StackClass T) (hs : s.Size ≤ MaxSize) (ops : List (StackOp T))
    (hcap : StackOp.withinCapacity 0 s.Size ops = true)
    (a : ArrayClass T) (xs : List T) (ha : a.Size + xs.length ≤ MaxSize) :
    (∃ s' popped, StackClass.run w s ops = some (s', popped) ∧
      ∀ (items : Ptr) (mem : Memory T), mem items = s'.view → ∀ fuel, s.Size < fuel →
        traverse (StackIterator.iterator w T) mem fuel (s.GetIterator items)
          = some ((List.range s.Size).map s'.Items) ∧
        ((List.range s.Size).map s'.Items).length = s.contents.length ∧
        (StackOp.withinCapacity s.Size s.Size ops = true →
          traverse (StackIterator.iterator w T) mem fuel (s.GetIterator items)
            = some s.contents)) ∧
    (∃ a', ArrayClass.addAll w a xs = some a' ∧
      ∀ (items : Ptr) (mem : Memory T), mem items = a'.view → ∀ fuel, a.Size < fuel →
        traverse (ArrayIterator.iterator w T) mem fuel (a.GetIterator items)
          = some a.contents) := by
  have hs' : s.Top ≤ MaxSize := hs
  constructor
  · obtain ⟨s', popped, hrun, _, _, _, _, _⟩ :=
      StackClass.run_spec hw 0 ops s hs' (Nat.zero_le _) hcap
    refine ⟨s', popped, hrun, ?_⟩
    intro items mem hmem fuel hf
    have htr := StackClass.stack_traverse_view hw s s' hs' items mem hmem fuel hf
    refine ⟨htr, by simp [StackClass.contents, StackClass.Size], ?_⟩
    intro hkeep
    obtain ⟨s'', popped', hrun', _, _, _, _, hframe⟩ :=
      StackClass.run_spec hw s.Top ops s hs' (Nat.le_refl _) hkeep
    rw [hrun] at hrun'
    have hsame : s' = s'' := congrArg Prod.fst (Option.some.inj hrun')
    rw [htr]
    congr 1
    apply List.map_congr_left
    intro i hi
    rw [hsame]
    exact hframe i (List.mem_range.mp hi)
  · have ha' : a.ArraySize + xs.length ≤ MaxSize := ha
    obtain ⟨a', hrun, _, _, hframe⟩ := ArrayClass.addAll_spec hw xs a ha'
    refine ⟨a', hrun, ?_⟩
    intro items mem hmem fuel hf
    rw [ArrayClass.array_traverse_view hw a a' (by omega) items mem hmem fuel hf]
    congr 1
    apply List.map_congr_left
    intro i hi
    exact hframe i (List.mem_range.mp hi)

/-- Witness of the amended C9: an iterator is taken from the stack holding
`[5, 2]`, then `Push(9); Pop()` is called; and one from the array holding
`[3, 1]`, then `Add(4)` is called. -/
theorem iterator_after_mutation_witness :
    (MaxSize < 2 ^ 64 ∧
      (StackClass.mk (arrayWrite (arrayWrite (fun _ => 0) 0 5) 1 2) 2).Size ≤ MaxSize ∧
      StackOp.withinCapacity 0 (StackClass.mk (arrayWrite (arrayWrite (fun _ => 0) 0 5) 1 2) 2).Size
        [StackOp.push 9, StackOp.pop] = true ∧
      (ArrayClass.mk (arrayWrite (arrayWrite (fun _ => 0) 0 3) 1 1) 2).Size
        + ([4] : List Nat).length ≤ MaxSize) ∧
    ((∃ s' popped,
      StackClass.run 64 (StackClass.mk (arrayWrite (arrayWrite (fun _ => 0) 0 5) 1 2) 2)
        [StackOp.push 9, StackOp.pop] = some (s', popped) ∧
      ∀ (items : Ptr) (mem : Memory Nat), mem items = s'.view → ∀ fuel,
        (StackClass.mk (arrayWrite (arrayWrite (fun _ => 0) 0 5) 1 2) 2).Size < fuel →
        traverse (StackIterator.iterator 64 Nat) mem fuel
            ((StackClass.mk (arrayWrite (arrayWrite (fun _ => 0) 0 5) 1 2) 2).GetIterator items)
          = some ((List.range
              (StackClass.mk (arrayWrite (arrayWrite (fun _ => 0) 0 5) 1 2) 2).Size).map
                s'.Items) ∧
        ((List.range (StackClass.mk (arrayWrite (arrayWrite (fun _ => 0) 0 5) 1 2) 2).Size).map
            s'.Items).length
          = (StackClass.mk (arrayWrite (arrayWrite (fun _ => 0) 0 5) 1 2) 2).contents.length ∧
        (StackOp.withinCapacity
            (StackClass.mk (arrayWrite (arrayWrite (fun _ => 0) 0 5) 1 2) 2).Size
            (StackClass.mk (arrayWrite (arrayWrite (fun _ => 0) 0 5) 1 2) 2).Size
            [StackOp.push 9, StackOp.pop] = true →
          traverse (StackIterator.iterator 64 Nat) mem fuel
              ((StackClass.mk (arrayWrite (arrayWrite (fun _ => 0) 0 5) 1 2) 2).GetIterator items)
            = some (StackClass.mk (arrayWrite (arrayWrite (fun _ => 0) 0 5) 1 2) 2).contents)) ∧
    (∃ a',
      ArrayClass.addAll 64 (ArrayClass.mk (arrayWrite (arrayWrite (fun _ => 0) 0 3) 1 1) 2) [4]
        = some a' ∧
      ∀ (items : Ptr) (mem : Memory Nat), mem items = a'.view → ∀ fuel,
        (ArrayClass.mk (arrayWrite (arrayWrite (fun _ => 0) 0 3) 1 1) 2).Size < fuel →
        traverse (ArrayIterator.iterator 64 Nat) mem fuel
            ((ArrayClass.mk (arrayWrite (arrayWrite (fun _ => 0) 0 3) 1 1) 2).GetIterator items)
          = some (ArrayClass.mk (arrayWrite (arrayWrite (fun _ => 0) 0 3) 1 1) 2).contents)) :=
  ⟨⟨by decide, by decide, by decide, by decide⟩,
    iterator_after_mutation 64 (by decide)
      (StackClass.mk (arrayWrite (arrayWrite (fun _ => 0) 0 5) 1 2) 2) (by decide)
      [StackOp.push 9, StackOp.pop] (by decide)
      (ArrayClass.mk (arrayWrite (arrayWrite (fun _ => 0) 0 3) 1 1) 2) [4] (by decide)⟩

/-! ## Capacity invariant and bounds safety -/

/-- Under the caller's checks a prefix of the call sequence runs without an
out-of-bounds access, leaves the counter within capacity, and the checks hold
for the remaining calls from the state reached. -/
theorem StackClass.stack_respects_append {T : Type} {w : Nat} (hw : MaxSize < 2 ^ w) :
    ∀ (pre post : List (StackOp T)) (s : StackClass T), s.Top ≤ MaxSize →
      StackClass.respects w s (pre ++ post) = true →
      ∃ s' popped, StackClass.run w s pre = some (s', popped) ∧ s'.Top ≤ MaxSize ∧
        StackClass.respects w s' post = true := by
  intro pre
  induction pre with
  | nil => intro post s hs h; exact ⟨s, [], rfl, hs, h⟩
  | cons op pre ih =>
    intro post s hs h
    cases op with
    | push x =>
      simp only [List.cons_append, StackClass.respects, StackClass.Size, Bool.and_eq_true,
        decide_eq_true_eq] at h
      obtain ⟨hlt, hrest⟩ := h
      rw [StackClass.Push_of_lt hw s x hlt] at hrest
      obtain ⟨s', popped, hrun, hs', hpost⟩ := ih post _ (by simp only; omega) hrest
      refine ⟨s', popped, ?_, hs', hpost⟩
      simp only [StackClass.run, StackClass.Push_of_lt hw s x hlt]
      exact hrun
    | pop =>
      simp only [List.cons_append, StackClass.respects, StackClass.Size, Bool.and_eq_true,
        decide_eq_true_eq] at h
      obtain ⟨hpos, hrest⟩ := h
      rw [StackClass.Pop_of_pos hw s hpos hs] at hrest
      obtain ⟨s', popped, hrun, hs', hpost⟩ := ih post _ (by simp only; omega) hrest
      refine ⟨s', s.Items (s.Top - 1) :: popped, ?_, hs', hpost⟩
      simp only [StackClass.run, StackClass.Pop_of_pos hw s hpos hs, hrun, Option.map_some']

theorem ArrayClass.array_respects_append {T : Type} {w : Nat} (hw : MaxSize < 2 ^ w) :
    ∀ (pre post : List T) (a : ArrayClass T), a.ArraySize ≤ MaxSize →
      ArrayClass.respects w a (pre ++ post) = true →
      ∃ a', ArrayClass.addAll w a pre = some a' ∧ a'.ArraySize ≤ MaxSize ∧
        ArrayClass.respects w a' post = true := by
  intro pre
  induction pre with
  | nil => intro post a ha h; exact ⟨a, rfl, ha, h⟩
  | cons x pre ih =>
    intro post a ha h
    simp only [List.cons_append, ArrayClass.respects, ArrayClass.Size, Bool.and_eq_true,
      decide_eq_true_eq] at h
    obtain ⟨hlt, hrest⟩ := h
    rw [ArrayClass.Add_of_lt hw a x hlt] at hrest
    obtain ⟨a', hrun, ha', hpost⟩ := ih post _ (by simp only; omega) hrest
    refine ⟨a', ?_, ha', hpost⟩
    simp only [ArrayClass.addAll, ArrayClass.Add_of_lt hw a x hlt]
    exact hrun

/-- C10: capacity invariant and bounds safety under the documented
preconditions.  When every `Push` / `Add` is called with `Size() < MaxSize` and
every `Pop` with `Size() > 0`, starting from a freshly constructed container,
then after every prefix `pre` of the calls no access has left `Items`, the
element count is at most `MaxSize`, and the next call writes (`Push`, `Add`) or
reads (`Pop`) at an index below `MaxSize`, so it does not take the
out-of-bounds branch and again leaves a count of at most `MaxSize`. -/
theorem capacity_invariant {T : Type} (w : Nat) (hw : MaxSize < 2 ^ w)
    (init : Nat → T) (pre post : List (StackOp T))
    (hstack : StackClass.respects w (StackClass.ctor init) (pre ++ post) = true)
    (xs ys : List T)
    (harray : ArrayClass.respects w (ArrayClass.ctor init) (xs ++ ys) = true) :
    (∃ s popped, StackClass.run w (StackClass.ctor init) pre = some (s, popped) ∧
      s.Size ≤ MaxSize ∧
      (∀ x rest, post = StackOp.push x :: rest →
        s.pushIndex < MaxSize ∧ ∃ s1, s.Push w x = some s1 ∧ s1.Size ≤ MaxSize) ∧
      (∀ rest, post = StackOp.pop :: rest →
        s.popIndex w < MaxSize ∧
          ∃ v, (s.Pop w).1 = some v ∧ (s.Pop w).2.Size ≤ MaxSize)) ∧
    (∃ a, ArrayClass.addAll w (ArrayClass.ctor init) xs = some a ∧
      a.Size ≤ MaxSize ∧
      (∀ y rest, ys = y :: rest →
        a.addIndex < MaxSize ∧ ∃ a1, a.Add w y = some a1 ∧ a1.Size ≤ MaxSize)) := by
  constructor
  · obtain ⟨s, popped, hrun, hs, hpost⟩ :=
      StackClass.stack_respects_append hw pre post (StackClass.ctor init) (Nat.zero_le _) hstack
    refine ⟨s, popped, hrun, hs, ?_, ?_⟩
    · intro x rest hx
      rw [hx] at hpost
      simp only [StackClass.respects, StackClass.Size, Bool.and_eq_true,
        decide_eq_true_eq] at hpost
      have hlt : s.Top < MaxSize := hpost.1
      refine ⟨hlt, _, StackClass.Push_of_lt hw s x hlt, ?_⟩
      show s.Top + 1 ≤ MaxSize
      omega
    · intro rest hx
      rw [hx] at hpost
      simp only [StackClass.respects, StackClass.Size, Bool.and_eq_true,
        decide_eq_true_eq] at hpost
      have hpos : 0 < s.Top := hpost.1
      have hdec : sizeDec w s.Top = s.Top - 1 := sizeDec_of_pos hpos (by omega)
      refine ⟨?_, s.Items (s.Top - 1), ?_, ?_⟩
      · show sizeDec w s.Top < MaxSize
        omega
      · rw [StackClass.Pop_of_pos hw s hpos hs]
      · rw [StackClass.Pop_of_pos hw s hpos hs]
        show s.Top - 1 ≤ MaxSize
        omega
  · obtain ⟨a, hrun, ha, hpost⟩ :=
      ArrayClass.array_respects_append hw xs ys (ArrayClass.ctor init) (Nat.zero_le _) harray
    refine ⟨a, hrun, ha, ?_⟩
    intro y rest hy
    rw [hy] at hpost
    simp only [ArrayClass.respects, ArrayClass.Size, Bool.and_eq_true,
      decide_eq_true_eq] at hpost
    have hlt : a.ArraySize < MaxSize := hpost.1
    refine ⟨hlt, _, ArrayClass.Add_of_lt hw a y hlt, ?_⟩
    show a.ArraySize + 1 ≤ MaxSize
    omega

/-- Witness of C10: the calls `Push(5); Push(2); Pop(); Push(7)` split after the
second call, and the calls `Add(3); Add(1); Add(4)` split after the first. -/
theorem capacity_invariant_witness :
    (MaxSize < 2 ^ 64 ∧
      StackClass.respects 64 (StackClass.ctor (fun _ => 0))
        ([StackOp.push 5, StackOp.push 2] ++ [StackOp.pop, StackOp.push 7]) = true ∧
      ArrayClass.respects 64 (ArrayClass.ctor (fun _ => 0)) ([3] ++ [1, 4]) = true) ∧
    ((∃ s popped,
      StackClass.run 64 (StackClass.ctor (fun _ => 0)) [StackOp.push 5, StackOp.push 2]
        = some (s, popped) ∧
      s.Size ≤ MaxSize ∧
      (∀ x rest, [StackOp.pop, StackOp.push 7] = StackOp.push x :: rest →
        s.pushIndex < MaxSize ∧ ∃ s1, s.Push 64 x = some s1 ∧ s1.Size ≤ MaxSize) ∧
      (∀ rest, [StackOp.pop, StackOp.push 7] = StackOp.pop :: rest →
        s.popIndex 64 < MaxSize ∧
          ∃ v, (s.Pop 64).1 = some v ∧ (s.Pop 64).2.Size ≤ MaxSize)) ∧
    (∃ a, ArrayClass.addAll 64 (ArrayClass.ctor (fun _ => 0)) [3] = some a ∧
      a.Size ≤ MaxSize ∧
      (∀ y rest, [1, 4] = y :: rest →
        a.addIndex < MaxSize ∧ ∃ a1, a.Add 64 y = some a1 ∧ a1.Size ≤ MaxSize))) :=
  ⟨⟨by decide, by decide, by decide⟩,
    capacity_invariant 64 (by decide) (fun _ => 0)
      [StackOp.push 5, StackOp.push 2] [StackOp.pop, StackOp.push 7] (by decide)
      [3] [1, 4] (by decide)⟩

/-! ## The adapter of an external container -/

theorem ConstIteratorAdapter.traverseFrom_drop {T : Type} (mem : Memory T) (xs : List T) :
    ∀ (fuel k : Nat), k ≤ xs.length → xs.length - k < fuel →
      traverseFrom (ConstIteratorAdapter.iterator T) mem fuel { Container := xs, It := k }
        = some (xs.drop k) := by
  intro fuel
  induction fuel with
  | zero => intro k _ hf; omega
  | succ fuel ih =>
    intro k hk hf
    unfold traverseFrom
    by_cases hend : k = xs.length
    · subst hend
      simp [ConstIteratorAdapter.iterator, ConstIteratorAdapter.IsDone, containerEnd]
    · have hlt : k < xs.length := by omega
      have hrec := ih (k + 1) (by omega) (by omega)
      have hnext : (ConstIteratorAdapter.iterator T).Next { Container := xs, It := k }
          = { Container := xs, It := k + 1 } := rfl
      have hdone : (ConstIteratorAdapter.iterator T).IsDone { Container := xs, It := k }
          = false := by
        simp [ConstIteratorAdapter.iterator, ConstIteratorAdapter.IsDone, containerEnd, hend]
      have hcur : (ConstIteratorAdapter.iterator T).GetCurrent mem { Container := xs, It := k }
          = xs[k]? := rfl
      rw [hdone, hcur, hnext, hrec, List.getElem?_eq_getElem hlt]
      simp only [Bool.false_eq_true, if_false, Option.map_some']
      rw [← List.drop_eq_getElem_cons hlt]

theorem ConstIteratorAdapter.calls_Container {T : Type} :
    ∀ (cs : List IterCall) (a : ConstIteratorAdapter T),
      ((ConstIteratorAdapter.iterator T).calls a cs).Container = a.Container := by
  intro cs
  induction cs with
  | nil => intro a; rfl
  | cons c cs ih =>
    intro a
    rw [calls_cons, ih]
    cases c <;> rfl

/-- C11: for an external sequence container `c` a `ConstIteratorAdapter`
constructed on `c` starts at the beginning of `c`; `First()` resets it to the
beginning from any position; `IsDone()` is true iff the position is the end of
`c`; a full traversal, from any position and after any calls, yields exactly
the elements of `c` in their order when the loop is given more than
`length c` evaluations of its condition; and no call changes `c`. -/
theorem ConstIteratorAdapter.adapter_traverses_container {T : Type} (c : List T) (pos : Nat)
    (cs : List IterCall) (mem : Memory T) (fuel : Nat) (hf : c.length < fuel) :
    (ConstIteratorAdapter.ctor c).It = containerBegin c ∧
    (ConstIteratorAdapter.First { Container := c, It := pos }).It = containerBegin c ∧
    (ConstIteratorAdapter.IsDone { Container := c, It := pos } = true ↔
      pos = containerEnd c) ∧
    traverse (ConstIteratorAdapter.iterator T) mem fuel { Container := c, It := pos }
      = some c ∧
    traverse (ConstIteratorAdapter.iterator T) mem fuel
        ((ConstIteratorAdapter.iterator T).calls (ConstIteratorAdapter.ctor c) cs)
      = some c ∧
    (ConstIteratorAdapter.ctor c).Container = c ∧
    ((ConstIteratorAdapter.iterator T).calls { Container := c, It := pos } cs).Container
      = c := by
  have htr : ∀ a : ConstIteratorAdapter T, a.Container = c →
      traverse (ConstIteratorAdapter.iterator T) mem fuel a = some c := by
    intro a ha
    unfold traverse
    have hfirst : (ConstIteratorAdapter.iterator T).First a = { Container := c, It := 0 } := by
      show ConstIteratorAdapter.First a = _
      simp [ConstIteratorAdapter.First, containerBegin, ha]
    rw [hfirst, ConstIteratorAdapter.traverseFrom_drop mem c fuel 0 (Nat.zero_le _) (by omega)]
    simp
  refine ⟨rfl, rfl, ?_, htr _ rfl, htr _ ?_, rfl, ?_⟩
  · simp [ConstIteratorAdapter.IsDone]
  · rw [ConstIteratorAdapter.calls_Container]
    rfl
  · rw [ConstIteratorAdapter.calls_Container]

/-- Witness of C11: the container `[3, 1, 4]`, an adapter at position 2 and the
calls `Next(); First(); Next()`. -/
theorem ConstIteratorAdapter.adapter_traverses_container_witness :
    ([3, 1, 4] : List Nat).length < 4 ∧
    ((ConstIteratorAdapter.ctor [3, 1, 4]).It = containerBegin [3, 1, 4] ∧
    (ConstIteratorAdapter.First { Container := [3, 1, 4], It := 2 }).It
      = containerBegin [3, 1, 4] ∧
    (ConstIteratorAdapter.IsDone { Container := [3, 1, 4], It := 2 } = true ↔
      2 = containerEnd [3, 1, 4]) ∧
    traverse (ConstIteratorAdapter.iterator Nat) (fun _ _ => none) 4
        { Container := [3, 1, 4], It := 2 }
      = some [3, 1, 4] ∧
    traverse (ConstIteratorAdapter.iterator Nat) (fun _ _ => none) 4
        ((ConstIteratorAdapter.iterator Nat).calls (ConstIteratorAdapter.ctor [3, 1, 4])
          [IterCall.next, IterCall.first, IterCall.next])
      = some [3, 1, 4] ∧
    (ConstIteratorAdapter.ctor [3, 1, 4]).Container = [3, 1, 4] ∧
    ((ConstIteratorAdapter.iterator Nat).calls { Container := [3, 1, 4], It := 2 }
        [IterCall.next, IterCall.first, IterCall.next]).Container
      = [3, 1, 4]) :=
  ⟨by decide,
    ConstIteratorAdapter.adapter_traverses_container [3, 1, 4] 2
      [IterCall.next, IterCall.first, IterCall.next] (fun _ _ => none) 4 (by decide)⟩

/-! ## Random access -/

/-- C12: append with frame.  For a `StackClass` (an `ArrayClass`) with
`Size() == s < MaxSize` and every `x`, `Push(x)` (`Add(x)`) stays inside
`Items`, yields `Size() == s + 1`, stores `x` at index `s` as
`GetElementByIndex(s)` (`GetElement(s)`) shows, and leaves the element at every
index `i < s` unchanged. -/
theorem append_with_frame {T : Type} (w : Nat) (hw : MaxSize < 2 ^ w)
    (s : StackClass T) (a : ArrayClass T) (x : T)
    (hs : s.Size < MaxSize) (ha : a.Size < MaxSize) :
    (∃ s1, s.Push w x = some s1 ∧ s1.Size = s.Size + 1 ∧
      s1.GetElementByIndex s.Size = some x ∧
      ∀ i, i < s.Size → s1.GetElementByIndex i = s.GetElementByIndex i) ∧
    (∃ a1, a.Add w x = some a1 ∧ a1.Size = a.Size + 1 ∧
      a1.GetElement a.Size = some x ∧
      ∀ i, i < a.Size → a1.GetElement i = a.GetElement i) := by
  have hs' : s.Top < MaxSize := hs
  have ha' : a.ArraySize < MaxSize := ha
  constructor
  · refine ⟨_, StackClass.Push_of_lt hw s x hs', rfl, ?_, ?_⟩
    · simp [StackClass.GetElementByIndex, StackClass.Size, arrayRead, hs', arrayWrite_same]
    · intro i hi
      have hi' : i < s.Top := hi
      have hne : i ≠ s.Top := by omega
      simp [StackClass.GetElementByIndex, arrayRead, arrayWrite_of_ne s.Items x hne]
  · refine ⟨_, ArrayClass.Add_of_lt hw a x ha', rfl, ?_, ?_⟩
    · simp [ArrayClass.GetElement, ArrayClass.Size, arrayRead, ha', arrayWrite_same]
    · intro i hi
      have hi' : i < a.ArraySize := hi
      have hne : i ≠ a.ArraySize := by omega
      simp [ArrayClass.GetElement, arrayRead, arrayWrite_of_ne a.Items x hne]

/-- Witness of C12: `Push(7)` on the stack holding `[5, 2]` and `Add(4)` on the
array holding `[3, 1]`. -/
theorem append_with_frame_witness :
    (MaxSize < 2 ^ 64 ∧
      (StackClass.mk (arrayWrite (arrayWrite (fun _ => 0) 0 5) 1 2) 2).Size < MaxSize ∧
      (ArrayClass.mk (arrayWrite (arrayWrite (fun _ => 0) 0 3) 1 1) 2).Size < MaxSize) ∧
    ((∃ s1, (StackClass.mk (arrayWrite (arrayWrite (fun _ => 0) 0 5) 1 2) 2).Push 64 7
        = some s1 ∧
      s1.Size = (StackClass.mk (arrayWrite (arrayWrite (fun _ => 0) 0 5) 1 2) 2).Size + 1 ∧
      s1.GetElementByIndex (StackClass.mk (arrayWrite (arrayWrite (fun _ => 0) 0 5) 1 2) 2).Size
        = some 7 ∧
      ∀ i, i < (StackClass.mk (arrayWrite (arrayWrite (fun _ => 0) 0 5) 1 2) 2).Size →
        s1.GetElementByIndex i
          = (StackClass.mk (arrayWrite (arrayWrite (fun _ => 0) 0 5) 1 2) 2).GetElementByIndex
              i) ∧
    (∃ a1, (ArrayClass.mk (arrayWrite (arrayWrite (fun _ => 0) 0 3) 1 1) 2).Add 64 7
        = some a1 ∧
      a1.Size = (ArrayClass.mk (arrayWrite (arrayWrite (fun _ => 0) 0 3) 1 1) 2).Size + 1 ∧
      a1.GetElement (ArrayClass.mk (arrayWrite (arrayWrite (fun _ => 0) 0 3) 1 1) 2).Size
        = some 7 ∧
      ∀ i, i < (ArrayClass.mk (arrayWrite (arrayWrite (fun _ => 0) 0 3) 1 1) 2).Size →
        a1.GetElement i
          = (ArrayClass.mk (arrayWrite (arrayWrite (fun _ => 0) 0 3) 1 1) 2).GetElement i)) :=
  ⟨⟨by decide, by decide, by decide⟩,
    append_with_frame 64 (by decide)
      (StackClass.mk (arrayWrite (arrayWrite (fun _ => 0) 0 5) 1 2) 2)
      (ArrayClass.mk (arrayWrite (arrayWrite (fun _ => 0) 0 3) 1 1) 2) 7
      (by decide) (by decide)⟩

theorem getElem?_of_map_range {T : Type} (items : Nat → T) (n : Nat) (xs : List T)
    (h : (List.range n).map items = xs) (i : Nat) (hi : i < n) :
    xs[i]? = some (items i) := by
  subst h
  simp [List.getElem?_map, List.getElem?_range hi]

theorem nextTimes_ptr {I T : Type} {w : Nat} {ops : Iterator I T}
    {ptr : I → Ptr} {pos size : I → Nat} (laws : CursorLaws w ops ptr pos size) :
    ∀ (k : Nat) (it : I), ptr (ops.nextTimes k it) = ptr it := by
  intro k
  induction k with
  | zero => intro it; rfl
  | succ k ih =>
    intro it
    simp only [Iterator.nextTimes]
    rw [ih, laws.next_ptr]

/-- C13: random access agrees with insertion order and with the iterator.  For
the `ArrayClass` built by `Add(x_0); ...; Add(x_{n-1})` with `n <= MaxSize`,
`operator[]` and `GetElement` are equal on every index, both return `x_i` at
every index `i < n`, and `x_i` is what `GetCurrent()` returns when the iterator
of the container has been advanced `i` times from `First()`.  For a
`StackClass` reached within capacity, `GetElementByIndex(i)` returns the `i`-th
element from the bottom of the reference stack for every `i < Size()`. -/
theorem random_access_agrees {T : Type} (w : Nat) (hw : MaxSize < 2 ^ w)
    (init : Nat → T) (xs : List T) (hn : xs.length ≤ MaxSize)
    (ops : List (StackOp T)) (hcap : StackOp.withinCapacity 0 0 ops = true) :
    (∃ a, ArrayClass.addAll w (ArrayClass.ctor init) xs = some a ∧
      (∀ index, a.subscript index = a.GetElement index) ∧
      ∀ i, i < xs.length →
        a.subscript i = xs[i]? ∧ a.GetElement i = xs[i]? ∧
        ∀ (items : Ptr) (mem : Memory T), mem items = a.view →
          (ArrayIterator.iterator w T).GetCurrent mem
              ((ArrayIterator.iterator w T).nextTimes i
                ((ArrayIterator.iterator w T).First (a.GetIterator items)))
            = xs[i]?) ∧
    (∃ s popped st, StackClass.run w (StackClass.ctor init) ops = some (s, popped) ∧
      refStackRun [] ops = some (st, popped) ∧
      ∀ i, i < s.Size → s.GetElementByIndex i = st.reverse[i]?) := by
  constructor
  · obtain ⟨a, hrun, hsize, hcont, _⟩ :=
      ArrayClass.addAll_spec hw xs (ArrayClass.ctor init) (by simp [ArrayClass.ctor]; exact hn)
    have hsize' : a.ArraySize = xs.length := by simpa [ArrayClass.ctor] using hsize
    have hc : (List.range a.ArraySize).map a.Items = xs := by
      simpa [ArrayClass.array_contents_ctor, ArrayClass.contents] using hcont
    refine ⟨a, hrun, fun _ => rfl, ?_⟩
    intro i hi
    have hget := getElem?_of_map_range a.Items a.ArraySize xs hc i (by omega)
    have hread : arrayRead a.Items i = xs[i]? := by
      rw [hget]
      exact arrayRead_of_lt a.Items (by omega)
    refine ⟨hread, hread, ?_⟩
    intro items mem hmem
    have laws := ArrayIterator.arrayCursorLaws w T
    have hpos := (nextTimes_cursor laws i
      ((ArrayIterator.iterator w T).First (a.GetIterator items))
      (by rw [laws.first_pos]; omega)).1
    have hptr := nextTimes_ptr laws i
      ((ArrayIterator.iterator w T).First (a.GetIterator items))
    rw [laws.first_pos] at hpos
    rw [laws.first_ptr] at hptr
    rw [laws.getCurrent, hpos, hptr]
    show mem items (0 + i) = xs[i]?
    rw [hmem, Nat.zero_add]
    exact hread
  · obtain ⟨s, popped, hrun, href, hcap', _, _, _⟩ :=
      StackClass.run_spec hw 0 ops (StackClass.ctor init) (Nat.zero_le _) (Nat.le_refl _) hcap
    refine ⟨s, popped, s.contents.reverse, hrun, ?_, ?_⟩
    · simpa [StackClass.stack_contents_ctor] using href
    · intro i hi
      have hi' : i < s.Top := hi
      rw [List.reverse_reverse]
      rw [getElem?_of_map_range s.Items s.Top s.contents rfl i hi']
      exact arrayRead_of_lt s.Items (by omega)

/-- Witness of C13: the array built by `Add(3); Add(1); Add(4)` and the stack
after `Push(5); Push(2); Pop()`. -/
theorem random_access_agrees_witness :
    (MaxSize < 2 ^ 64 ∧ ([3, 1, 4] : List Nat).length ≤ MaxSize ∧
      StackOp.withinCapacity 0 0 [StackOp.push 5, StackOp.push 2, StackOp.pop] = true) ∧
    ((∃ a, ArrayClass.addAll 64 (ArrayClass.ctor (fun _ => 0)) [3, 1, 4] = some a ∧
      (∀ index, a.subscript index = a.GetElement index) ∧
      ∀ i, i < ([3, 1, 4] : List Nat).length →
        a.subscript i = ([3, 1, 4] : List Nat)[i]? ∧
        a.GetElement i = ([3, 1, 4] : List Nat)[i]? ∧
        ∀ (items : Ptr) (mem : Memory Nat), mem items = a.view →
          (ArrayIterator.iterator 64 Nat).GetCurrent mem
              ((ArrayIterator.iterator 64 Nat).nextTimes i
                ((ArrayIterator.iterator 64 Nat).First (a.GetIterator items)))
            = ([3, 1, 4] : List Nat)[i]?) ∧
    (∃ s popped st,
      StackClass.run 64 (StackClass.ctor (fun _ => 0))
        [StackOp.push 5, StackOp.push 2, StackOp.pop] = some (s, popped) ∧
      refStackRun [] [StackOp.push 5, StackOp.push 2, StackOp.pop] = some (st, popped) ∧
      ∀ i, i < s.Size → s.GetElementByIndex i = st.reverse[i]?)) ∧
    (ArrayClass.addAll 64 (ArrayClass.ctor (fun _ => 0)) [3, 1, 4]).map
      (fun a => (a.subscript 1, a.GetElement 1,
        (ArrayIterator.iterator 64 Nat).GetCurrent (fun _ => a.view)
          ((ArrayIterator.iterator 64 Nat).nextTimes 1
            ((ArrayIterator.iterator 64 Nat).First (a.GetIterator 0)))))
      = some (some 1, some 1, some 1) :=
  ⟨⟨by decide, by decide, by decide⟩,
    random_access_agrees 64 (by decide) (fun _ => 0) [3, 1, 4] (by decide)
      [StackOp.push 5, StackOp.push 2, StackOp.pop] (by decide),
    by decide⟩

/-! ## Wrap-around of the `size_t` counters -/

theorem nextTimes_pos_mod {I T : Type} {w : Nat} {ops : Iterator I T}
    {ptr : I → Ptr} {pos size : I → Nat} (laws : CursorLaws w ops ptr pos size) :
    ∀ (k : Nat) (it : I), pos it < 2 ^ w →
      pos (ops.nextTimes k it) = (pos it + k) % 2 ^ w ∧
      size (ops.nextTimes k it) = size it := by
  intro k
  induction k with
  | zero =>
    intro it h
    exact ⟨(Nat.mod_eq_of_lt h).symm, rfl⟩
  | succ k ih =>
    intro it _
    obtain ⟨h1, h2⟩ := ih (ops.Next it) (by rw [laws.next_pos]; exact sizeInc_lt w _)
    rw [laws.next_pos] at h1
    rw [laws.next_size] at h2
    refine ⟨?_, by simp only [Iterator.nextTimes, h2]⟩
    simp only [Iterator.nextTimes, h1, sizeInc, Nat.mod_add_mod]
    congr 1
    omega

theorem isDone_nextTimes {I T : Type} {w : Nat} {ops : Iterator I T}
    {ptr : I → Ptr} {pos size : I → Nat} (laws : CursorLaws w ops ptr pos size)
    (k : Nat) (it : I) (h : pos it < 2 ^ w) :
    ops.IsDone (ops.nextTimes k it) = decide (size it ≤ (pos it + k) % 2 ^ w) := by
  obtain ⟨h1, h2⟩ := nextTimes_pos_mod laws k it h
  rw [laws.isDone, h1, h2]

theorem done_cursor_facts {I T : Type} {w : Nat} {ops : Iterator I T}
    {ptr : I → Ptr} {pos size : I → Nat} (laws : CursorLaws w ops ptr pos size)
    (k : Nat) (it : I) (h : pos it < 2 ^ w) :
    (ops.IsDone (ops.nextTimes k it) = decide (size it ≤ (pos it + k) % 2 ^ w)) ∧
    (ops.IsDone it = true → pos it + k < 2 ^ w → ops.IsDone (ops.nextTimes k it) = true) ∧
    (size it = 0 → ops.IsDone (ops.nextTimes k it) = true) ∧
    (ops.IsDone it = true → 0 < size it →
      ops.IsDone (ops.nextTimes (2 ^ w - pos it) it) = false) := by
  refine ⟨isDone_nextTimes laws k it h, ?_, ?_, ?_⟩
  · intro hd hk
    rw [laws.isDone] at hd
    simp only [ge_iff_le, decide_eq_true_eq] at hd
    rw [isDone_nextTimes laws k it h, Nat.mod_eq_of_lt hk]
    simp only [decide_eq_true_eq]
    omega
  · intro h0
    rw [isDone_nextTimes laws k it h, h0]
    simp
  · intro _ hpos
    rw [isDone_nextTimes laws (2 ^ w - pos it) it h]
    have e : pos it + (2 ^ w - pos it) = 2 ^ w := by omega
    rw [e, Nat.mod_self]
    simp only [decide_eq_false_iff_not, not_le]
    omega

/-- C5, as stated, fails at the largest snapshot size: on a machine whose
`size_t` has 64 bits the iterator with snapshot size `2 ^ 64 - 1`, which is the
one `GetIterator()` returns after `Pop()` on a freshly constructed stack, is
done after exactly `2 ^ 64 - 1` calls of `Next()`, and the next call of
`Next()` wraps the cursor to 0, where `IsDone()` is false, for `StackIterator`
and for `ArrayIterator`. -/
theorem next_wraps_at_largest_size :
    (((StackClass.ctor (fun _ => (0 : Nat))).Pop 64).2.GetIterator 0
        = StackIterator.ctor 0 (2 ^ 64 - 1) ∧
      (StackIterator.iterator 64 Nat).IsDone
        ((StackIterator.iterator 64 Nat).nextTimes (2 ^ 64 - 1)
          (StackIterator.ctor 0 (2 ^ 64 - 1))) = true ∧
      (StackIterator.iterator 64 Nat).IsDone
        ((StackIterator.iterator 64 Nat).nextTimes (2 ^ 64 - 1 + 1)
          (StackIterator.ctor 0 (2 ^ 64 - 1))) = false ∧
      ¬ (StackIterator.iterator 64 Nat).DoneAfterExactly (2 ^ 64 - 1)
          (StackIterator.ctor 0 (2 ^ 64 - 1))) ∧
    ((ArrayIterator.iterator 64 Nat).IsDone
        ((ArrayIterator.iterator 64 Nat).nextTimes (2 ^ 64 - 1)
          (ArrayIterator.ctor 0 (2 ^ 64 - 1))) = true ∧
      (ArrayIterator.iterator 64 Nat).IsDone
        ((ArrayIterator.iterator 64 Nat).nextTimes (2 ^ 64 - 1 + 1)
          (ArrayIterator.ctor 0 (2 ^ 64 - 1))) = false ∧
      ¬ (ArrayIterator.iterator 64 Nat).DoneAfterExactly (2 ^ 64 - 1)
          (ArrayIterator.ctor 0 (2 ^ 64 - 1))) := by
  have hs : (StackIterator.iterator 64 Nat).IsDone
      ((StackIterator.iterator 64 Nat).nextTimes (2 ^ 64 - 1 + 1)
        (StackIterator.ctor 0 (2 ^ 64 - 1))) = false := by
    rw [isDone_nextTimes (StackIterator.stackCursorLaws 64 Nat) (2 ^ 64 - 1 + 1) _ (by decide)]
    decide
  have ha : (ArrayIterator.iterator 64 Nat).IsDone
      ((ArrayIterator.iterator 64 Nat).nextTimes (2 ^ 64 - 1 + 1)
        (ArrayIterator.ctor 0 (2 ^ 64 - 1))) = false := by
    rw [isDone_nextTimes (ArrayIterator.arrayCursorLaws 64 Nat) (2 ^ 64 - 1 + 1) _ (by decide)]
    decide
  refine ⟨⟨by decide, ?_, hs, ?_⟩, ⟨?_, ha, ?_⟩⟩
  · rw [isDone_nextTimes (StackIterator.stackCursorLaws 64 Nat) (2 ^ 64 - 1) _ (by decide)]
    decide
  · intro h
    have h3 := h.2.2
    rw [hs] at h3
    exact Bool.false_ne_true h3
  · rw [isDone_nextTimes (ArrayIterator.arrayCursorLaws 64 Nat) (2 ^ 64 - 1) _ (by decide)]
    decide
  · intro h
    have h3 := h.2.2
    rw [ha] at h3
    exact Bool.false_ne_true h3

/-- C14, as stated, fails: on a machine whose `size_t` has 64 bits, the iterator
of a one-element container (snapshot size `1 <= MaxSize`) is done after one
`Next()`, with the cursor at 1, and after `2 ^ 64 - 1` further calls of `Next()`
the cursor has wrapped to 0 and `IsDone()` is false, for `StackIterator` and
for `ArrayIterator`. -/
theorem done_left_by_wraparound :
    ((StackIterator.ctor 0 1).Size ≤ MaxSize ∧
      (StackIterator.iterator 64 Nat).IsDone
        ((StackIterator.iterator 64 Nat).nextTimes 1 (StackIterator.ctor 0 1)) = true ∧
      (StackIterator.iterator 64 Nat).IsDone
        ((StackIterator.iterator 64 Nat).nextTimes (2 ^ 64 - 1)
          ((StackIterator.iterator 64 Nat).nextTimes 1 (StackIterator.ctor 0 1))) = false) ∧
    ((ArrayIterator.ctor 0 1).Size ≤ MaxSize ∧
      (ArrayIterator.iterator 64 Nat).IsDone
        ((ArrayIterator.iterator 64 Nat).nextTimes 1 (ArrayIterator.ctor 0 1)) = true ∧
      (ArrayIterator.iterator 64 Nat).IsDone
        ((ArrayIterator.iterator 64 Nat).nextTimes (2 ^ 64 - 1)
          ((ArrayIterator.iterator 64 Nat).nextTimes 1 (ArrayIterator.ctor 0 1))) = false) := by
  refine ⟨⟨by decide, by decide, ?_⟩, ⟨by decide, by decide, ?_⟩⟩
  · rw [isDone_nextTimes (StackIterator.stackCursorLaws 64 Nat) (2 ^ 64 - 1) _ (by decide)]
    decide
  · rw [isDone_nextTimes (ArrayIterator.arrayCursorLaws 64 Nat) (2 ^ 64 - 1) _ (by decide)]
    decide

/-- C14, amended: with the cursor a `size_t` counter of `w` bits, after `k`
calls of `Next()` the iterator is done iff `Size <= (Pos + k) mod 2 ^ w`.  Hence
once `IsDone()` is true it remains true after `k` further calls of `Next()` as
long as the cursor does not wrap (`Pos + k < 2 ^ w`), and after any number of
calls when `Size` is zero; with `Size > 0` the call number `2 ^ w - Pos` wraps
the cursor to 0 and `IsDone()` is false again. -/
theorem done_until_wraparound {T : Type} (w k : Nat) (it : StackIterator) (jt : ArrayIterator)
    (hit : it.Pos < 2 ^ w) (hjt : jt.Pos < 2 ^ w) :
    (((StackIterator.iterator w T).IsDone ((StackIterator.iterator w T).nextTimes k it)
        = decide (it.Size ≤ (it.Pos + k) % 2 ^ w)) ∧
      (it.IsDone = true → it.Pos + k < 2 ^ w →
        (StackIterator.iterator w T).IsDone ((StackIterator.iterator w T).nextTimes k it)
          = true) ∧
      (it.Size = 0 →
        (StackIterator.iterator w T).IsDone ((StackIterator.iterator w T).nextTimes k it)
          = true) ∧
      (it.IsDone = true → 0 < it.Size →
        (StackIterator.iterator w T).IsDone
          ((StackIterator.iterator w T).nextTimes (2 ^ w - it.Pos) it) = false)) ∧
    (((ArrayIterator.iterator w T).IsDone ((ArrayIterator.iterator w T).nextTimes k jt)
        = decide (jt.Size ≤ (jt.Pos + k) % 2 ^ w)) ∧
      (jt.IsDone = true → jt.Pos + k < 2 ^ w →
        (ArrayIterator.iterator w T).IsDone ((ArrayIterator.iterator w T).nextTimes k jt)
          = true) ∧
      (jt.Size = 0 →
        (ArrayIterator.iterator w T).IsDone ((ArrayIterator.iterator w T).nextTimes k jt)
          = true) ∧
      (jt.IsDone = true → 0 < jt.Size →
        (ArrayIterator.iterator w T).IsDone
          ((ArrayIterator.iterator w T).nextTimes (2 ^ w - jt.Pos) jt) = false)) :=
  ⟨done_cursor_facts (StackIterator.stackCursorLaws w T) k it hit,
    done_cursor_facts (ArrayIterator.arrayCursorLaws w T) k jt hjt⟩

/-- Witness of the amended C14: iterators of snapshot size 3 that are done, with
the cursor at 3, and five further calls of `Next()`. -/
theorem done_until_wraparound_witness :
    ((StackIterator.mk 0 3 3).Pos < 2 ^ 64 ∧ (ArrayIterator.mk 0 3 3).Pos < 2 ^ 64) ∧
    ((((StackIterator.iterator 64 Nat).IsDone
          ((StackIterator.iterator 64 Nat).nextTimes 5 (StackIterator.mk 0 3 3))
        = decide ((StackIterator.mk 0 3 3).Size ≤ ((StackIterator.mk 0 3 3).Pos + 5) % 2 ^ 64)) ∧
      ((StackIterator.mk 0 3 3).IsDone = true → (StackIterator.mk 0 3 3).Pos + 5 < 2 ^ 64 →
        (StackIterator.iterator 64 Nat).IsDone
          ((StackIterator.iterator 64 Nat).nextTimes 5 (StackIterator.mk 0 3 3)) = true) ∧
      ((StackIterator.mk 0 3 3).Size = 0 →
        (StackIterator.iterator 64 Nat).IsDone
          ((StackIterator.iterator 64 Nat).nextTimes 5 (StackIterator.mk 0 3 3)) = true) ∧
      ((StackIterator.mk 0 3 3).IsDone = true → 0 < (StackIterator.mk 0 3 3).Size →
        (StackIterator.iterator 64 Nat).IsDone
          ((StackIterator.iterator 64 Nat).nextTimes (2 ^ 64 - (StackIterator.mk 0 3 3).Pos)
            (StackIterator.mk 0 3 3)) = false)) ∧
    (((ArrayIterator.iterator 64 Nat).IsDone
          ((ArrayIterator.iterator 64 Nat).nextTimes 5 (ArrayIterator.mk 0 3 3))
        = decide ((ArrayIterator.mk 0 3 3).Size ≤ ((ArrayIterator.mk 0 3 3).Pos + 5) % 2 ^ 64)) ∧
      ((ArrayIterator.mk 0 3 3).IsDone = true → (ArrayIterator.mk 0 3 3).Pos + 5 < 2 ^ 64 →
        (ArrayIterator.iterator 64 Nat).IsDone
          ((ArrayIterator.iterator 64 Nat).nextTimes 5 (ArrayIterator.mk 0 3 3)) = true) ∧
      ((ArrayIterator.mk 0 3 3).Size = 0 →
        (ArrayIterator.iterator 64 Nat).IsDone
          ((ArrayIterator.iterator 64 Nat).nextTimes 5 (ArrayIterator.mk 0 3 3)) = true) ∧
      ((ArrayIterator.mk 0 3 3).IsDone = true → 0 < (ArrayIterator.mk 0 3 3).Size →
        (ArrayIterator.iterator 64 Nat).IsDone
          ((ArrayIterator.iterator 64 Nat).nextTimes (2 ^ 64 - (ArrayIterator.mk 0 3 3).Pos)
            (ArrayIterator.mk 0 3 3)) = false))) :=
  ⟨⟨by decide, by decide⟩,
    done_until_wraparound 64 5 (StackIterator.mk 0 3 3) (ArrayIterator.mk 0 3 3)
      (by decide) (by decide)⟩

/-- C15: `Pop()` on an empty `StackClass` underflows the size counter and has no
failure path.  With `Top == 0` the pre-decrement leaves `Size() == 2 ^ w - 1`
and `IsEmpty()` false, `Items` itself is not changed, and the index read,
`2 ^ w - 1`, is outside the `MaxSize` elements of `Items`, so that the returned
value is not an element of the array. -/
theorem pop_empty_underflows {T : Type} (w : Nat) (hw : MaxSize < 2 ^ w) (s : StackClass T)
    (h0 : s.Top = 0) :
    s.IsEmpty = true ∧
    (s.Pop w).2.Size = 2 ^ w - 1 ∧
    (s.Pop w).2.IsEmpty = false ∧
    (s.Pop w).2.Items = s.Items ∧
    s.popIndex w = 2 ^ w - 1 ∧
    MaxSize ≤ s.popIndex w ∧
    (s.Pop w).1 = none := by
  have hdec : sizeDec w s.Top = 2 ^ w - 1 := by
    unfold sizeDec
    rw [h0, Nat.zero_add]
    exact Nat.mod_eq_of_lt (by have := two_pow_pos_w w; omega)
  have hidx : s.popIndex w = 2 ^ w - 1 := hdec
  have hge : MaxSize ≤ 2 ^ w - 1 := by omega
  refine ⟨by simp [StackClass.IsEmpty, h0], ?_, ?_, rfl, hidx, by omega, ?_⟩
  · show sizeDec w s.Top = 2 ^ w - 1
    exact hdec
  · show decide (sizeDec w s.Top = 0) = false
    rw [hdec]
    have hne : 2 ^ w - 1 ≠ 0 := by unfold MaxSize at hge; omega
    simp [hne]
  · show arrayRead s.Items (s.popIndex w) = none
    rw [hidx]
    unfold arrayRead
    rw [if_neg (by omega)]

/-- Witness of C15: `Pop()` on a freshly constructed stack on a machine whose
`size_t` has 64 bits, after which `Size()` is `18446744073709551615`. -/
theorem pop_empty_underflows_witness :
    (MaxSize < 2 ^ 64 ∧ (StackClass.ctor (fun _ => (0 : Nat))).Top = 0) ∧
    ((StackClass.ctor (fun _ => (0 : Nat))).IsEmpty = true ∧
    ((StackClass.ctor (fun _ => (0 : Nat))).Pop 64).2.Size = 2 ^ 64 - 1 ∧
    ((StackClass.ctor (fun _ => (0 : Nat))).Pop 64).2.IsEmpty = false ∧
    ((StackClass.ctor (fun _ => (0 : Nat))).Pop 64).2.Items
      = (StackClass.ctor (fun _ => (0 : Nat))).Items ∧
    (StackClass.ctor (fun _ => (0 : Nat))).popIndex 64 = 2 ^ 64 - 1 ∧
    MaxSize ≤ (StackClass.ctor (fun _ => (0 : Nat))).popIndex 64 ∧
    ((StackClass.ctor (fun _ => (0 : Nat))).Pop 64).1 = none) ∧
    ((StackClass.ctor (fun _ => (0 : Nat))).Pop 64).2.Size = 18446744073709551615 :=
  ⟨⟨by decide, rfl⟩,
    pop_empty_underflows 64 (by decide) (StackClass.ctor (fun _ => (0 : Nat))) rfl,
    by decide⟩

/-! ## The factory functions -/

theorem input_differs_from_noInputMethod (strategy : InputStrategy) :
    strategy.Input ≠ noInputMethod := by
  cases strategy <;> decide

/-- The keyboard `CreateKeyboard` builds for `rand() % 3`: it is not `nullptr`,
its strategy is not `nullptr`, and one call of `rand()` was made. -/
theorem CreateKeyboard_mod_three (v : Nat) (r : RandState) :
    ∃ kb, CreateKeyboard (Int.ofNat (v % 3)) r
        = (some kb, { results := r.results, calls := r.calls + 1 }) ∧
      kb.Strategy ≠ none := by
  have h : v % 3 = 0 ∨ v % 3 = 1 ∨ v % 3 = 2 := by omega
  rcases h with h | h | h
  · rw [h]
    refine ⟨(MechanicalKeyboard.ctor r).1, rfl, ?_⟩
    show CreateInputStrategy InputStrategyEnum.Click ≠ none
    decide
  · rw [h]
    refine ⟨(MembraneKeyboard.ctor r).1, rfl, ?_⟩
    show CreateInputStrategy InputStrategyEnum.Silent ≠ none
    decide
  · rw [h]
    refine ⟨(OpticalKeyboard.ctor r).1, rfl, ?_⟩
    show CreateInputStrategy InputStrategyEnum.Touch ≠ none
    decide

/-- C16: factory dispatch.  `CreateKeyboard(t)` returns a keyboard iff `t` is
`Mechanical`, `Membrane` or `Optical`, of the class `MechanicalKeyboard`,
`MembraneKeyboard` or `OpticalKeyboard` with the strategy `Click`, `Silent` or
`Touch`, and `nullptr` for `Unknown` and every other value;
`CreateInputStrategy` returns the `Click`, `Touch` and `Silent` strategies for
the matching enumerators and `nullptr` otherwise; and on every keyboard that
`CreateKeyboard` produces the strategy is not `nullptr`, so `Use()` calls
`Input()` of the strategy and does not write "No input method defined!". -/
theorem factory_dispatch (type : KeyboardType) (strategyType : InputStrategyEnum)
    (r : RandState) :
    (((CreateKeyboard type r).1 ≠ none) ↔
      (type = KeyboardType.Mechanical ∨ type = KeyboardType.Membrane ∨
        type = KeyboardType.Optical)) ∧
    (CreateKeyboard KeyboardType.Mechanical r).1
      = some { dynamicType := KeyboardClass.MechanicalKeyboard,
               Strategy := some InputStrategy.ClickInputStrategy,
               IsFunctional := decide (r.results r.calls % 2 ≠ 0) } ∧
    (CreateKeyboard KeyboardType.Membrane r).1
      = some { dynamicType := KeyboardClass.MembraneKeyboard,
               Strategy := some InputStrategy.SilentInputStrategy,
               IsFunctional := decide (r.results r.calls % 2 ≠ 0) } ∧
    (CreateKeyboard KeyboardType.Optical r).1
      = some { dynamicType := KeyboardClass.OpticalKeyboard,
               Strategy := some InputStrategy.TouchInputStrategy,
               IsFunctional := decide (r.results r.calls % 2 ≠ 0) } ∧
    (CreateKeyboard KeyboardType.Unknown r).1 = none ∧
    CreateInputStrategy InputStrategyEnum.Click = some InputStrategy.ClickInputStrategy ∧
    CreateInputStrategy InputStrategyEnum.Touch = some InputStrategy.TouchInputStrategy ∧
    CreateInputStrategy InputStrategyEnum.Silent = some InputStrategy.SilentInputStrategy ∧
    CreateInputStrategy InputStrategyEnum.None = none ∧
    ((CreateInputStrategy strategyType ≠ none) ↔
      (strategyType = InputStrategyEnum.Click ∨ strategyType = InputStrategyEnum.Touch ∨
        strategyType = InputStrategyEnum.Silent)) ∧
    (∀ kb, (CreateKeyboard type r).1 = some kb →
      kb.Strategy ≠ none ∧
      (∃ strategy, kb.Strategy = some strategy ∧ kb.UseWithStrategy = strategy.Input) ∧
      kb.UseWithStrategy ≠ noInputMethod ∧
      kb.Use.getLast? ≠ some noInputMethod) := by
  refine ⟨?_, rfl, rfl, rfl, rfl, rfl, rfl, rfl, rfl, ?_, ?_⟩
  · unfold CreateKeyboard
    by_cases h1 : type = KeyboardType.Mechanical
    · rw [if_pos h1]
      exact ⟨fun _ => Or.inl h1, fun _ => by simp⟩
    · rw [if_neg h1]
      by_cases h2 : type = KeyboardType.Membrane
      · rw [if_pos h2]
        exact ⟨fun _ => Or.inr (Or.inl h2), fun _ => by simp⟩
      · rw [if_neg h2]
        by_cases h3 : type = KeyboardType.Optical
        · rw [if_pos h3]
          exact ⟨fun _ => Or.inr (Or.inr h3), fun _ => by simp⟩
        · rw [if_neg h3]
          simp [h1, h2, h3]
  · unfold CreateInputStrategy
    by_cases h1 : strategyType = InputStrategyEnum.Click
    · rw [if_pos h1]
      exact ⟨fun _ => Or.inl h1, fun _ => by simp⟩
    · rw [if_neg h1]
      by_cases h2 : strategyType = InputStrategyEnum.Touch
      · rw [if_pos h2]
        exact ⟨fun _ => Or.inr (Or.inl h2), fun _ => by simp⟩
      · rw [if_neg h2]
        by_cases h3 : strategyType = InputStrategyEnum.Silent
        · rw [if_pos h3]
          exact ⟨fun _ => Or.inr (Or.inr h3), fun _ => by simp⟩
        · rw [if_neg h3]
          simp [h1, h2, h3]
  · intro kb hkb
    have hstrat : ∃ strategy, kb.Strategy = some strategy := by
      unfold CreateKeyboard at hkb
      by_cases h1 : type = KeyboardType.Mechanical
      · rw [if_pos h1] at hkb
        exact ⟨InputStrategy.ClickInputStrategy, by rw [← Option.some.inj hkb]; rfl⟩
      · rw [if_neg h1] at hkb
        by_cases h2 : type = KeyboardType.Membrane
        · rw [if_pos h2] at hkb
          exact ⟨InputStrategy.SilentInputStrategy, by rw [← Option.some.inj hkb]; rfl⟩
        · rw [if_neg h2] at hkb
          by_cases h3 : type = KeyboardType.Optical
          · rw [if_pos h3] at hkb
            exact ⟨InputStrategy.TouchInputStrategy, by rw [← Option.some.inj hkb]; rfl⟩
          · rw [if_neg h3] at hkb
            exact absurd hkb (by simp)
    obtain ⟨strategy, hs⟩ := hstrat
    have huse : kb.UseWithStrategy = strategy.Input := by
      simp [Keyboard.UseWithStrategy, hs]
    refine ⟨by simp [hs], ⟨strategy, hs, huse⟩, ?_, ?_⟩
    · rw [huse]
      exact input_differs_from_noInputMethod strategy
    · simp only [Keyboard.Use, List.getLast?_cons_cons, List.getLast?_singleton, huse, ne_eq,
        Option.some.injEq]
      exact input_differs_from_noInputMethod strategy

/-! ## `UseAll` and `main` -/

/-- The loop of `UseAll` over a cursor whose array holds a keyboard at every
index below the snapshot size: it ends, calls `Use()` on the keyboards at the
indices `pos it, ..., size it - 1` in this order, and calls `GetCurrent()` only
in states that are not done. -/
theorem UseAllFrom_cursor {I : Type} {w : Nat} {ops : Iterator I (Option Keyboard)}
    {ptr : I → Ptr} {pos size : I → Nat} (laws : CursorLaws w ops ptr pos size)
    (mem : Memory (Option Keyboard)) (items : Nat → Option Keyboard) :
    ∀ (fuel : Nat) (it : I), size it < 2 ^ w →
      (∀ i, i < size it → mem (ptr it) i = some (items i)) →
      (∀ i, i < size it → ∃ kb, items i = some kb) →
      size it - pos it < fuel →
      ∃ trace, UseAllFrom ops mem fuel it = some trace ∧
        trace.map (fun entry => some entry.2)
          = (List.range' (pos it) (size it - pos it)).map items ∧
        ∀ entry, entry ∈ trace → ops.IsDone entry.1 = false := by
  intro fuel
  induction fuel with
  | zero => intro it _ _ _ hf; omega
  | succ fuel ih =>
    intro it hw hmem hkb hf
    unfold UseAllFrom
    by_cases hd : size it ≤ pos it
    · have e : size it - pos it = 0 := by omega
      refine ⟨[], ?_, ?_, ?_⟩
      · simp [laws.isDone, hd]
      · simp [e]
      · intro entry he
        simp at he
    · have hlt : pos it < size it := by omega
      have hinc : sizeInc w (pos it) = pos it + 1 := sizeInc_of_lt (by omega)
      obtain ⟨trace, hrun, hmap, hnot⟩ := ih (ops.Next it)
        (by rw [laws.next_size]; exact hw)
        (by rw [laws.next_size, laws.next_ptr]; exact hmem)
        (by rw [laws.next_size]; exact hkb)
        (by rw [laws.next_size, laws.next_pos, hinc]; omega)
      rw [laws.next_size, laws.next_pos, hinc] at hmap
      obtain ⟨kb, hkb'⟩ := hkb (pos it) hlt
      have hdone : ops.IsDone it = false := by
        rw [laws.isDone]
        simp only [ge_iff_le, decide_eq_false_iff_not]
        exact hd
      have hcur : ops.GetCurrent mem it = some (some kb) := by
        rw [laws.getCurrent, hmem _ hlt, hkb']
      refine ⟨(it, kb) :: trace, ?_, ?_, ?_⟩
      · simp only [hdone, Bool.false_eq_true, if_false, hcur, hrun, Option.map_some']
      · have e : size it - pos it = (size it - (pos it + 1)) + 1 := by omega
        rw [e, List.range'_succ, List.map_cons, List.map_cons, hmap, hkb']
      · intro entry he
        rcases List.mem_cons.mp he with h | h
        · rw [h]
          exact hdone
        · exact hnot entry h

/-- The loop of `main` with `n` iterations left and room for `n` more elements:
it ends, no `Add` writes outside `Items`, `n` keyboards are appended, none of
them `nullptr`, and `rand()` is called twice in every iteration. -/
theorem mainFill_spec {w : Nat} (hw : MaxSize < 2 ^ w) :
    ∀ (n i : Nat) (r : RandState) (arr : ArrayClass (Option Keyboard)),
      i + n = 10 → arr.ArraySize + n ≤ MaxSize →
      ∃ (r' : RandState) (arr' : ArrayClass (Option Keyboard)) (kbs : List Keyboard),
        (∀ fuel, n < fuel → mainFill w fuel i r arr = some (r', arr')) ∧
        arr'.ArraySize = arr.ArraySize + n ∧
        kbs.length = n ∧
        arr'.contents = arr.contents ++ kbs.map some ∧
        r'.results = r.results ∧ r'.calls = r.calls + 2 * n ∧
        ∀ j, j < n → keyboardAt r.results (r.calls + 2 * j) = kbs[j]? := by
  intro n
  induction n with
  | zero =>
    intro i r arr hi _
    refine ⟨r, arr, [], ?_, rfl, rfl, by simp, rfl, rfl,
      fun j hj => absurd hj (Nat.not_lt_zero j)⟩
    intro fuel hf
    cases fuel with
    | zero => omega
    | succ fuel =>
      have hge : ¬ i < 10 := by omega
      simp only [mainFill, hge, if_false]
  | succ n ih =>
    intro i r arr hi hroom
    have hlt : arr.ArraySize < MaxSize := by omega
    have hi10 : i < 10 := by omega
    have hinc : sizeInc w i = i + 1 := sizeInc_of_lt (by unfold MaxSize at hw; omega)
    obtain ⟨kb, hkb, _⟩ := CreateKeyboard_mod_three (rand r).1 (rand r).2
    obtain ⟨r', arr', kbs, hrun, hsize, hlen, hcont, hres, hcalls, hat⟩ :=
      ih (i + 1) { results := (rand r).2.results, calls := (rand r).2.calls + 1 }
        { Items := arrayWrite arr.Items arr.ArraySize (some kb), ArraySize := arr.ArraySize + 1 }
        (by omega) (by simp only; omega)
    refine ⟨r', arr', kb :: kbs, ?_, ?_, ?_, ?_, ?_, ?_, ?_⟩
    · intro fuel hf
      cases fuel with
      | zero => omega
      | succ fuel =>
        simp only [mainFill, hi10, if_true, hkb, ArrayClass.Add_of_lt hw arr (some kb) hlt, hinc]
        exact hrun fuel (by omega)
    · rw [hsize]
      simp only
      omega
    · simp [hlen]
    · rw [hcont]
      simp only [ArrayClass.contents, map_arrayWrite_range_succ]
      simp
    · rw [hres]
      rfl
    · rw [hcalls]
      simp only [rand]
      omega
    · intro j hj
      cases j with
      | zero =>
        simp only [Nat.mul_zero, Nat.add_zero, List.getElem?_cons_zero]
        show (CreateKeyboard (Int.ofNat ((rand r).1 % 3)) (rand r).2).1 = some kb
        rw [hkb]
      | succ j =>
        have h := hat j (by omega)
        simp only [List.getElem?_cons_succ]
        rw [← h]
        simp only [rand]
        congr 1
        omega

/-- C17: `main` is safe for every outcome of `rand()`.  Every `rand() % 3` is 0,
1 or 2, so each of the ten pointers stored by `keyboardArray.Add` is a
keyboard and not `nullptr`; ten elements, no more than `MaxSize`, are added
without a write outside `Items`, by a loop that ends; and `UseAll` terminates
after calling `Use()` exactly ten times, once on each stored keyboard in `Add` order, calling
`GetCurrent()` only when `IsDone()` is false. -/
theorem main_is_safe (w : Nat) (hw : MaxSize < 2 ^ w) (results : Nat → Nat)
    (init : Nat → Option Keyboard) :
    ∃ (r : RandState) (keyboardArray : ArrayClass (Option Keyboard)) (kbs : List Keyboard),
      (∀ fuel, 10 < fuel →
        mainFill w fuel 0 { results := results, calls := 0 } (ArrayClass.ctor init)
          = some (r, keyboardArray)) ∧
      keyboardArray.Size = 10 ∧ keyboardArray.Size ≤ MaxSize ∧
      kbs.length = 10 ∧
      keyboardArray.contents = kbs.map some ∧
      (∀ j, j < 10 → results (2 * j) % 3 < 3 ∧ keyboardAt results (2 * j) = kbs[j]?) ∧
      (∀ kb, kb ∈ kbs → kb.Strategy ≠ none) ∧
      ∀ fuel, 10 < fuel →
        ∃ trace, main w results init fuel = some trace ∧
          trace.length = 10 ∧
          trace.map (fun entry => entry.2) = kbs ∧
          ∀ entry, entry ∈ trace → entry.1.IsDone = false := by
  obtain ⟨r, arr, kbs, hrun, hsize, hlen, hcont, _, _, hat⟩ :=
    mainFill_spec hw 10 0 { results := results, calls := 0 } (ArrayClass.ctor init)
      (Nat.zero_add 10) (by simp [ArrayClass.ctor, MaxSize])
  have hsize' : arr.ArraySize = 10 := by simpa [ArrayClass.ctor] using hsize
  have hc : (List.range arr.ArraySize).map arr.Items = kbs.map some := by
    simpa [ArrayClass.array_contents_ctor, ArrayClass.contents] using hcont
  have hitem : ∀ i, i < arr.ArraySize → ∃ kb, arr.Items i = some kb ∧ kbs[i]? = some kb := by
    intro i hi
    have h := getElem?_of_map_range arr.Items arr.ArraySize _ hc i hi
    rw [List.getElem?_map] at h
    have hk : i < kbs.length := by omega
    rw [List.getElem?_eq_getElem hk] at h
    exact ⟨kbs[i], (Option.some.inj h).symm, List.getElem?_eq_getElem hk⟩
  have hat' : ∀ j, j < 10 → keyboardAt results (2 * j) = kbs[j]? := by
    intro j hj
    have h := hat j hj
    simp only [Nat.zero_add] at h
    exact h
  have hstrat : ∀ kb, kb ∈ kbs → kb.Strategy ≠ none := by
    intro kb hmem
    obtain ⟨j, hj, hget⟩ := List.getElem_of_mem hmem
    have hj' : j < 10 := by omega
    have h := hat' j hj'
    rw [List.getElem?_eq_getElem hj, hget] at h
    obtain ⟨kb', hkb', hs⟩ := CreateKeyboard_mod_three
      (rand { results := results, calls := 2 * j }).1
      (rand { results := results, calls := 2 * j }).2
    have h2 : keyboardAt results (2 * j) = some kb' := by
      unfold keyboardAt
      rw [hkb']
    rw [h2] at h
    rw [← Option.some.inj h]
    exact hs
  refine ⟨r, arr, kbs, hrun, hsize', ?_, hlen, ?_, ?_, hstrat, ?_⟩
  · show arr.ArraySize ≤ MaxSize
    rw [hsize']
    decide
  · simpa [ArrayClass.array_contents_ctor] using hcont
  · intro j hj
    exact ⟨Nat.mod_lt _ (by decide), hat' j hj⟩
  · intro fuel hf
    obtain ⟨trace, htr, hmap, hnot⟩ :=
      UseAllFrom_cursor (ArrayIterator.arrayCursorLaws w (Option Keyboard))
        (fun _ => arr.view) arr.Items fuel
        ((ArrayIterator.iterator w (Option Keyboard)).First (arr.GetIterator 0))
        (by show arr.ArraySize < 2 ^ w; unfold MaxSize at hw; omega)
        (by
          intro i hi
          have hi' : i < arr.ArraySize := hi
          exact arrayRead_of_lt arr.Items (by unfold MaxSize; omega))
        (by
          intro i hi
          obtain ⟨kb, hkb, _⟩ := hitem i hi
          exact ⟨kb, hkb⟩)
        (by show arr.ArraySize - 0 < fuel; omega)
    have hmap' : (trace.map (fun entry => entry.2)).map some = kbs.map some := by
      rw [← hc, List.map_map]
      rw [List.range_eq_range']
      exact hmap
    have hsnd : trace.map (fun entry => entry.2) = kbs :=
      List.map_injective_iff.mpr (Option.some_injective _) hmap'
    refine ⟨trace, ?_, ?_, hsnd, hnot⟩
    · simp only [main, hrun fuel hf]
      exact htr
    · have := congrArg List.length hsnd
      simpa [hlen] using this

/-- Witness of C17: a machine whose `size_t` has 64 bits and the generator whose
`i`-th result is `7 * i + 3`, for which the classes of the ten keyboards used
are evaluated. -/
theorem main_is_safe_witness :
    MaxSize < 2 ^ 64 ∧
    (∃ (r : RandState) (keyboardArray : ArrayClass (Option Keyboard)) (kbs : List Keyboard),
      (∀ fuel, 10 < fuel →
        mainFill 64 fuel 0 { results := fun i => 7 * i + 3, calls := 0 }
            (ArrayClass.ctor (fun _ => none))
          = some (r, keyboardArray)) ∧
      keyboardArray.Size = 10 ∧ keyboardArray.Size ≤ MaxSize ∧
      kbs.length = 10 ∧
      keyboardArray.contents = kbs.map some ∧
      (∀ j, j < 10 → (fun i => 7 * i + 3) (2 * j) % 3 < 3 ∧
        keyboardAt (fun i => 7 * i + 3) (2 * j) = kbs[j]?) ∧
      (∀ kb, kb ∈ kbs → kb.Strategy ≠ none) ∧
      ∀ fuel, 10 < fuel →
        ∃ trace, main 64 (fun i => 7 * i + 3) (fun _ => none) fuel = some trace ∧
          trace.length = 10 ∧
          trace.map (fun entry => entry.2) = kbs ∧
          ∀ entry, entry ∈ trace → entry.1.IsDone = false) ∧
    (main 64 (fun i => 7 * i + 3) (fun _ => none) 11).map
      (fun trace => trace.map (fun entry => (entry.1.Pos, entry.2.dynamicType)))
      = some [(0, KeyboardClass.MechanicalKeyboard), (1, KeyboardClass.OpticalKeyboard),
          (2, KeyboardClass.MembraneKeyboard), (3, KeyboardClass.MechanicalKeyboard),
          (4, KeyboardClass.OpticalKeyboard), (5, KeyboardClass.MembraneKeyboard),
          (6, KeyboardClass.MechanicalKeyboard), (7, KeyboardClass.OpticalKeyboard),
          (8, KeyboardClass.MembraneKeyboard), (9, KeyboardClass.MechanicalKeyboard)] :=
  ⟨by decide, main_is_safe 64 (by decide) (fun i => 7 * i + 3) (fun _ => none), by decide⟩

end PatternTemplates
